import Mathlib

/-!
Verification of the boxlang interpreter core.

The repository contains two parallel implementations of the language:

* the "particle" implementation (files `src/unnamed/part_001` .. `part_003`),
  whose evaluator (`part_002`) carries a `HaltType` on results, and
* the token-stream implementation (`src/internal/box/eval.go`,
  `src/internal/box/parser.go`), whose evaluator has no `HaltType`.

Namespace `Box` embeds the particle evaluator (`part_002`, with the builtins
of `part_001`); namespace `IB` embeds `internal/box/eval.go`; namespace
`IBLex` embeds the stateful lexer of `internal/box/parser.go`.

Modelling conventions:

* Go strings are modelled as `String` / `List Char`; Go maps as association
  lists whose update (`assocSet`) replaces an existing key in place, which
  preserves key uniqueness and iteration-irrelevant extensional behaviour.
* Effectful operations (file redirection, pipes, process spawning, printing)
  are outside a shallow embedding.  The verbs' effects on the interpreter
  state are kept: each verb is modelled as a function
  `List Value → Scope → Result × Scope`, and the builtin dispatch table is a
  parameter `B` of the evaluator, exactly mirroring the `builtins` field of
  the Go `Evaluator` struct.  The pure builtins relevant to the claims are
  translated from `part_001` below.
* Command substitution (`executeCommandSubstitution`) re-enters the parser
  and a child evaluator and captures process output; it is abstracted as an
  oracle parameter `O : Scope → String → Except String Value`.  Its pure
  output post-processing (`strings.TrimSpace` + `strings.Split`) is
  translated separately as `processCommandSubOutput`.
* The Go evaluator is recursive through user functions and `while` loops and
  need not terminate; the embedding passes an explicit fuel, decremented at
  every call between the mutually recursive functions.  Running out of fuel
  yields a result with `error = some "out of fuel"`, so error-free runs of
  the model correspond to terminating runs of the Go code.
-/

/-- Decimal digit test used by the `strconv.Atoi` model. -/
def isDigitChar (c : Char) : Bool := '0' ≤ c ∧ c ≤ '9'

/-- Value of a nonempty all-digit string, `none` otherwise. -/
def digitsToNat : List Char → Option Nat
  | [] => none
  | [c] => if isDigitChar c then some (c.toNat - '0'.toNat) else none
  | c :: rest =>
    if isDigitChar c then
      match digitsToNat rest with
      | some n => some ((c.toNat - '0'.toNat) * 10 ^ rest.length + n)
      | none => none
    else none

/-- Model of Go `strconv.Atoi` (base 10, optional sign, 64-bit `int` range). -/
def goAtoi (s : String) : Option Int :=
  let signed : List Char → Option Int
    | '+' :: rest => (digitsToNat rest).map (fun n => (n : Int))
    | '-' :: rest => (digitsToNat rest).map (fun n => -(n : Int))
    | l => (digitsToNat l).map (fun n => (n : Int))
  match signed s.toList with
  | some v => if -(2 ^ 63) ≤ v ∧ v ≤ 2 ^ 63 - 1 then some v else none
  | none => none

/-- Model of Go `unicode.IsSpace` (the White_Space code points). -/
def goIsSpace (c : Char) : Bool :=
  c ∈ ['\t', '\n', Char.ofNat 11, Char.ofNat 12, '\r', ' ',
       Char.ofNat 0x85, Char.ofNat 0xA0, Char.ofNat 0x1680,
       Char.ofNat 0x2000, Char.ofNat 0x2001, Char.ofNat 0x2002,
       Char.ofNat 0x2003, Char.ofNat 0x2004, Char.ofNat 0x2005,
       Char.ofNat 0x2006, Char.ofNat 0x2007, Char.ofNat 0x2008,
       Char.ofNat 0x2009, Char.ofNat 0x200A, Char.ofNat 0x2028,
       Char.ofNat 0x2029, Char.ofNat 0x202F, Char.ofNat 0x205F,
       Char.ofNat 0x3000]

/-- Association-list lookup (Go map read). -/
def alookup {α : Type} : List (String × α) → String → Option α
  | [], _ => none
  | (k, v) :: rest, n => if k = n then some v else alookup rest n

/-- Association-list update (Go map write): replace the first binding of the
key in place, or append a fresh binding. -/
def assocSet {α : Type} : List (String × α) → String → α → List (String × α)
  | [], n, v => [(n, v)]
  | (k, w) :: rest, n, v =>
    if k = n then (n, v) :: rest else (k, w) :: assocSet rest n v

theorem alookup_assocSet_self {α : Type} (l : List (String × α)) (n : String) (v : α) :
    alookup (assocSet l n v) n = some v := by
  induction l with
  | nil => simp [assocSet, alookup]
  | cons p rest ih =>
    obtain ⟨k, w⟩ := p
    by_cases h : k = n <;> simp [assocSet, alookup, h, ih]

theorem alookup_assocSet_other {α : Type} (l : List (String × α)) (n m : String) (v : α)
    (h : m ≠ n) : alookup (assocSet l n v) m = alookup l m := by
  have h' : ¬ n = m := fun hh => h hh.symm
  have h'' : ¬ m = n := h
  induction l with
  | nil => simp [assocSet, alookup, h']
  | cons p rest ih =>
    obtain ⟨k, w⟩ := p
    by_cases hk : k = n
    · subst hk
      simp [assocSet, alookup, h', h'']
    · by_cases hm : k = m <;> simp [assocSet, alookup, hk, hm, h', h'', ih]

namespace Box

/-- Go `type Value []string` (part_002). -/
abbrev Value := List String

/-- Go `Value.String()`: first element, or empty for the empty value. -/
def Value.string : Value → String
  | [] => ""
  | s :: _ => s

/-- Go `Value.List()`. -/
def Value.list (v : Value) : List String := v

/-- Go `type HaltType int` with its five constants (part_002). -/
inductive HaltType where
  | noHalt
  | breakHalt
  | continueHalt
  | returnHalt
  | exitHalt
  deriving DecidableEq, Repr

/-- Go `type Result struct` of part_002: status, halt flag, halt type, error.
Errors are carried as their message strings. -/
structure Result where
  status : Int := 0
  halt : Bool := false
  haltType : HaltType := .noHalt
  error : Option String := none
  deriving DecidableEq, Repr

/-- Go `type ErrorPolicy int` (part_003): the four error policies. -/
inductive ErrorPolicy where
  | failFast
  | ignoreError
  | fallbackOnError
  | tryFallbackHalt
  deriving DecidableEq, Repr

/-- Go `type BlockType int` (part_003). -/
inductive BlockType where
  | mainBlock
  | funcBlock
  | dataBlock
  | customBlock
  deriving DecidableEq, Repr

/-- Expression AST (part_003): literal, variable (with optional index),
block lookup (dotted path), command substitution (inner source). -/
inductive Expr where
  | literalExpr (value : String)
  | variableExpr (name : String) (index : Option String)
  | blockLookupExpr (path : String)
  | commandSubExpr (command : String)
  deriving DecidableEq, Repr

mutual
/-- Go `type Cmd struct` (part_003): verb, argument expressions, error policy,
optional fallback.  Redirects and source locations are omitted (I/O and
diagnostics only). -/
inductive Cmd where
  | mk (verb : String) (args : List Expr) (policy : ErrorPolicy)
       (fallback : Option Cmd)

/-- One element of a block body: a command, a pipeline, or a nested block
(Go `Body []interface{}`). -/
inductive Item where
  | cmd (c : Cmd)
  | pipe (cmds : List Cmd)
  | blk (b : Block)

/-- Go `type Block struct` (part_003): type, label, header args, body.
Modifiers are omitted (used only for CLI `-i` dispatch). -/
inductive Block where
  | mk (type : BlockType) (label : String) (args : List String)
       (body : List Item)
end

def Cmd.verb : Cmd → String
  | .mk v _ _ _ => v

def Cmd.args : Cmd → List Expr
  | .mk _ a _ _ => a

def Cmd.policy : Cmd → ErrorPolicy
  | .mk _ _ p _ => p

def Cmd.fallback : Cmd → Option Cmd
  | .mk _ _ _ f => f

def Block.type : Block → BlockType
  | .mk t _ _ _ => t

def Block.label : Block → String
  | .mk _ l _ _ => l

def Block.args : Block → List String
  | .mk _ _ a _ => a

def Block.body : Block → List Item
  | .mk _ _ _ b => b

/-- Go `type Scope struct` (part_002): variables, local function table, data
blocks, imported namespaces, current namespace context, parent pointer. -/
inductive Scope where
  | mk (vars : List (String × Value))
       (functions : List (String × Block))
       (data : List (String × List (String × Value)))
       (namespaces : List (String × List (String × Block)))
       (currentNamespace : String)
       (parent : Option Scope)

def Scope.vars : Scope → List (String × Value)
  | .mk v _ _ _ _ _ => v

def Scope.functions : Scope → List (String × Block)
  | .mk _ f _ _ _ _ => f

def Scope.data : Scope → List (String × List (String × Value))
  | .mk _ _ d _ _ _ => d

def Scope.namespaces : Scope → List (String × List (String × Block))
  | .mk _ _ _ n _ _ => n

def Scope.currentNamespace : Scope → String
  | .mk _ _ _ _ c _ => c

def Scope.parent : Scope → Option Scope
  | .mk _ _ _ _ _ p => p

/-- Go `NewScope()`. -/
def Scope.new : Scope := .mk [] [] [] [] "" none

/-- Go `Scope.Set`: assignment writes to the innermost scope. -/
def Scope.set (s : Scope) (name : String) (value : Value) : Scope :=
  match s with
  | .mk v f d n c p => .mk (assocSet v name value) f d n c p

/-- Go `Scope.Get`: lookup walks the parent chain. -/
def Scope.get : Scope → String → Option Value
  | .mk v _ _ _ _ p, name =>
    match alookup v name with
    | some val => some val
    | none =>
      match p with
      | some par => par.get name
      | none => none

/-- Go `Scope.Child()`: fresh empty maps, parent pointer set. -/
def Scope.child (s : Scope) : Scope := .mk [] [] [] [] "" (some s)

/-- Go `Evaluator.getRootScope`. -/
def Scope.getRootScope : Scope → Scope
  | .mk v f d n c none => .mk v f d n c none
  | .mk _ _ _ _ _ (some p) => p.getRootScope

/-- Replace the data table of a scope (used when a function child scope
copies the root data blocks). -/
def Scope.withData (s : Scope) (d : List (String × List (String × Value))) : Scope :=
  match s with
  | .mk v f _ n c p => .mk v f d n c p

/-- Replace the namespace context of a scope. -/
def Scope.withCurrentNamespace (s : Scope) (ns : String) : Scope :=
  match s with
  | .mk v f d n _ p => .mk v f d n ns p

/-- Go `Evaluator.updateStatus`: `status` is set to `strconv.Itoa(result.Status)`
in the current scope. -/
def updateStatus (r : Result) (s : Scope) : Scope :=
  s.set "status" [toString r.status]

/-- Go `type BuiltinFunc func(args []Value, scope *Scope) Result`, with the
scope mutation made explicit. -/
abbrev BuiltinFunc := List Value → Scope → Result × Scope

/-- The builtin dispatch table (`e.builtins`). -/
abbrev BuiltinTable := String → Option BuiltinFunc

/-- Oracle for `executeCommandSubstitution`: parsing, child evaluation and
stdout capture of the inner program (I/O). -/
abbrev CsOracle := Scope → String → Except String Value

end Box

namespace Box

/-- Go `strings.Join(values, " ")` used for `${x[*]}`. -/
def joinSpace : List String → String
  | [] => ""
  | [s] => s
  | s :: rest => s ++ " " ++ joinSpace rest

/-- Go `builtinEcho` (part_001): prints the space-joined first elements
(printing is I/O; the scope is untouched) and succeeds. -/
def builtinEcho : BuiltinFunc := fun _args s => ({ status := 0 }, s)

/-- Go `builtinSet` (part_001): flatten the remaining argument lists and assign
to the named variable. -/
def builtinSet : BuiltinFunc := fun args s =>
  match args with
  | [] => ({ error := some "set: missing variable name" }, s)
  | nameArg :: rest =>
    let values := (rest.map Value.list).flatten
    ({ status := 0 }, s.set nameArg.string values)

/-- Go `builtinExit` (part_001): status from the first argument when it parses
as an integer, `Halt: true`; note that no `HaltType` is assigned. -/
def builtinExit : BuiltinFunc := fun args s =>
  let status : Int :=
    match args with
    | [] => 0
    | a :: _ =>
      match goAtoi a.string with
      | some v => v
      | none => 0
  ({ status := status, halt := true }, s)

/-- Go `builtinReturn` (part_001): like `exit` but also writes `status` into the
scope before returning; again no `HaltType` is assigned. -/
def builtinReturn : BuiltinFunc := fun args s =>
  let status : Int :=
    match args with
    | [] => 0
    | a :: _ =>
      match goAtoi a.string with
      | some v => v
      | none => 0
  ({ status := status, halt := true }, s.set "status" [toString status])

/-- Go `builtinBreak` (part_001): `Result{Status: 0, Halt: true}` — the comment
in the source calls it a "special break signal" but no `HaltType` is set. -/
def builtinBreak : BuiltinFunc := fun _args s => ({ status := 0, halt := true }, s)

/-- Go `builtinContinue` (part_001): `Result{Status: 0, Halt: true}`, likewise
without a `HaltType`. -/
def builtinContinue : BuiltinFunc := fun _args s => ({ status := 0, halt := true }, s)

/-- Go `builtinTest` (part_001): status 1 on no arguments or an empty string,
0 otherwise. -/
def builtinTest : BuiltinFunc := fun args s =>
  match args with
  | [] => ({ status := 1 }, s)
  | a :: _ => if a.string ≠ "" then ({ status := 0 }, s) else ({ status := 1 }, s)

/-- The pure fragment of the `builtins` dispatch table of part_001.  The
effectful verbs (file system, processes, network, `arith` on float64, …) are
not modelled; theorems quantify over the table where they need other verbs. -/
def builtinsModel : BuiltinTable := fun verb =>
  match verb with
  | "echo" => some builtinEcho
  | "set" => some builtinSet
  | "exit" => some builtinExit
  | "return" => some builtinReturn
  | "break" => some builtinBreak
  | "continue" => some builtinContinue
  | "test" => some builtinTest
  | _ => none

/-- Extend a builtin table with one more verb (used by test scenarios). -/
def extendTable (B : BuiltinTable) (name : String) (f : BuiltinFunc) : BuiltinTable :=
  fun verb => if verb = name then some f else B verb

/-- Find the first occurrence of `"$("` (`strings.Index(result, "$(")`):
returns the prefix before it and the remainder after it. -/
def splitAtDollarParen : List Char → Option (List Char × List Char)
  | [] => none
  | [_] => none
  | c :: d :: rest =>
    if c = '$' ∧ d = '(' then some ([], rest)
    else
      match splitAtDollarParen (d :: rest) with
      | some (pre, r) => some (c :: pre, r)
      | none => none

/-- The parenthesis-matching scan of `expandVariables`: starting just after
`"$("` with the given depth, return the enclosed text and the remainder
after the matching `')'`, or `none` when the parentheses are unbalanced. -/
def matchParen : List Char → Nat → Option (List Char × List Char)
  | [], _ => none
  | c :: rest, depth =>
    let depth' := if c = '(' then depth + 1 else if c = ')' then depth - 1 else depth
    if depth' = 0 then some ([], rest)
    else
      match matchParen rest depth' with
      | some (content, post) => some (c :: content, post)
      | none => none

/-- The `$(...)` loop of `expandVariables` (part_002): find `"$("`, match the
closing parenthesis, run the command substitution, splice in its string
coercion on success and the EMPTY string on error, and restart from the top
of the new string.  Fuel bounds the number of replacements. -/
def expandCmdSubs (O : CsOracle) (sc : Scope) : Nat → List Char → List Char
  | 0, l => l
  | fuel + 1, l =>
    match splitAtDollarParen l with
    | none => l
    | some (pre, rest) =>
      match matchParen rest 1 with
      | none => l
      | some (cmd, post) =>
        let replacement : List Char :=
          match O sc (String.mk cmd) with
          | .ok v => v.string.toList
          | .error _ => []
        expandCmdSubs O sc fuel (pre ++ (replacement ++ post))

/-- Find the first occurrence of `"${"`. -/
def splitAtDollarBrace : List Char → Option (List Char × List Char)
  | [] => none
  | [_] => none
  | c :: d :: rest =>
    if c = '$' ∧ d = '\x7b' then some ([], rest)
    else
      match splitAtDollarBrace (d :: rest) with
      | some (pre, r) => some (c :: pre, r)
      | none => none

/-- Find the first occurrence of a single character (`strings.Index`). -/
def splitAtChar (target : Char) : List Char → Option (List Char × List Char)
  | [] => none
  | c :: rest =>
    if c = target then some ([], rest)
    else
      match splitAtChar target rest with
      | some (pre, r) => some (c :: pre, r)
      | none => none

/-- Index of the first occurrence of a character, if any. -/
def firstIndexOf (target : Char) (l : List Char) : Option Nat :=
  match splitAtChar target l with
  | some (pre, _) => some pre.length
  | none => none

/-- The data-block walk of the `${...}` loop: look for `Data[blockName][field]`
from the current scope up the parent chain; empty replacement if missing. -/
def dataLookupReplacement (blockName fieldName : String) : Scope → List Char
  | .mk _ _ d _ _ p =>
    match alookup d blockName with
    | some blockMap =>
      match alookup blockMap fieldName with
      | some v => v.string.toList
      | none =>
        match p with
        | some par => dataLookupReplacement blockName fieldName par
        | none => []
    | none =>
      match p with
      | some par => dataLookupReplacement blockName fieldName par
      | none => []

/-- The replacement computed for one `${varPath}` occurrence (part_002):
dotted paths are data-block lookups (two or three components), bracketed
names are array accesses (`*` joins with spaces, a parsed index selects an
element or gives the empty string out of range), and anything else is a plain
variable whose string coercion is substituted (empty when unset). -/
def braceReplacement (sc : Scope) (varPath : List Char) : List Char :=
  if varPath.contains '.' then
    let parts := (List.splitOn '.' varPath).map String.mk
    if parts.length = 2 then
      dataLookupReplacement (parts.getD 0 "") (parts.getD 1 "") sc
    else if parts.length = 3 then
      dataLookupReplacement (parts.getD 0 "" ++ "." ++ parts.getD 1 "")
        (parts.getD 2 "") sc
    else []
  else if varPath.contains '[' ∧ varPath.contains ']' then
    match firstIndexOf '[' varPath, firstIndexOf ']' varPath with
    | some bracketStart, some bracketEnd =>
      if bracketStart < bracketEnd then
        let varName := String.mk (varPath.take bracketStart)
        let indexStr := String.mk ((varPath.drop (bracketStart + 1)).take
          (bracketEnd - bracketStart - 1))
        match sc.get varName with
        | some val =>
          if indexStr = "*" then (joinSpace val.list).toList
          else
            match goAtoi indexStr with
            | some idx =>
              if 0 ≤ idx ∧ idx < (val.list.length : Int) then
                (val.list.getD idx.toNat "").toList
              else []
            | none => []
        | none => []
      else []
    | _, _ => []
  else
    match sc.get (String.mk varPath) with
    | some val => val.string.toList
    | none => []

/-- The `${...}` loop of `expandVariables`: find `"${"`, find the next `'}'`,
substitute `braceReplacement`, restart from the top. -/
def expandBraceVars (sc : Scope) : Nat → List Char → List Char
  | 0, l => l
  | fuel + 1, l =>
    match splitAtDollarBrace l with
    | none => l
    | some (pre, rest) =>
      match splitAtChar '\x7d' rest with
      | none => l
      | some (varPath, post) =>
        expandBraceVars sc fuel (pre ++ (braceReplacement sc varPath ++ post))

/-- The identifier characters accepted after `$` by the third loop of
`expandVariables`: ASCII letters, digits and underscore. -/
def isIdentChar (c : Char) : Bool :=
  ('a' ≤ c ∧ c ≤ 'z') ∨ ('A' ≤ c ∧ c ≤ 'Z') ∨ ('0' ≤ c ∧ c ≤ '9') ∨ c = '_'

/-- The `$var` loop of `expandVariables`: find the first `'$'`; if it is
followed by at least one identifier character, substitute the variable's
string coercion (empty when unset) and restart; otherwise stop the whole
loop, leaving the string as it is. -/
def expandSimpleVars (sc : Scope) : Nat → List Char → List Char
  | 0, l => l
  | fuel + 1, l =>
    match splitAtChar '$' l with
    | none => l
    | some (pre, rest) =>
      let name := rest.takeWhile isIdentChar
      let post := rest.dropWhile isIdentChar
      if name.isEmpty then l
      else
        let replacement : List Char :=
          match sc.get (String.mk name) with
          | some v => v.string.toList
          | none => []
        expandSimpleVars sc fuel (pre ++ (replacement ++ post))

/-- Go `Evaluator.expandVariables` (part_002): the three replacement passes in
source order — `$(...)`, then `${...}`, then `$var`. -/
def expandVariables (O : CsOracle) (sc : Scope) (fuel : Nat) (text : String) : String :=
  String.mk (expandSimpleVars sc fuel
    (expandBraceVars sc fuel
      (expandCmdSubs O sc fuel text.toList)))

/-- Go `Evaluator.evalExpression` (part_002). -/
def evalExpression (O : CsOracle) (fuel : Nat) (expr : Expr) (sc : Scope) :
    Except String Value :=
  match expr with
  | .literalExpr v => .ok [expandVariables O sc fuel v]
  | .variableExpr name index =>
    match sc.get name with
    | none => .error ("undefined variable: " ++ name)
    | some val =>
      match index with
      | some ix =>
        if ix = "*" then .ok val
        else
          match goAtoi ix with
          | none => .error ("invalid array index: " ++ ix)
          | some idx =>
            if idx < 0 ∨ (val.list.length : Int) ≤ idx then .ok []
            else .ok [val.list.getD idx.toNat ""]
      | none =>
        match val with
        | [] => .ok []
        | x :: _ => .ok [x]
  | .blockLookupExpr path =>
    let parts := (List.splitOn '.' path.toList).map String.mk
    if parts.length < 2 then .error ("invalid header lookup: " ++ path)
    else
      match blockFieldLookup (parts.getD 0 "") (parts.getD 1 "") sc with
      | some v => .ok v
      | none => .error ("undefined header field: " ++ path)
  | .commandSubExpr command => O sc command
where
  /-- The scope-chain walk of the `BlockLookupExpr` branch. -/
  blockFieldLookup (blockName fieldName : String) : Scope → Option Value
    | .mk _ _ d _ _ p =>
      match alookup d blockName with
      | some blockMap =>
        match alookup blockMap fieldName with
        | some v => some v
        | none =>
          match p with
          | some par => blockFieldLookup blockName fieldName par
          | none => none
      | none =>
        match p with
        | some par => blockFieldLookup blockName fieldName par
        | none => none

/-- Evaluate a command's argument expressions left to right, stopping at the
first error (the argument loop of `evalCommand`). -/
def evalArgs (O : CsOracle) (fuel : Nat) : List Expr → Scope → Except String (List Value)
  | [], _ => .ok []
  | e :: rest, sc =>
    match evalExpression O fuel e sc with
    | .error err => .error err
    | .ok v =>
      match evalArgs O fuel rest sc with
      | .error err => .error err
      | .ok vs => .ok (v :: vs)

end Box

namespace Box

/-- Evaluation output: the `Result`, the current scope after the step, and a
trace of the verbs actually invoked (function calls and builtin calls), used
to state "the fallback is evaluated exactly once" style properties. -/
abbrev EvalOut := Result × Scope × List String

/-- The result produced when the evaluation fuel runs out: an error result,
so that error-free model runs correspond to terminating Go runs. -/
def fuelErr : Result := { error := some "out of fuel" }

/-- Go `strings.SplitN(argName, "=", 2)` for defaulted parameters. -/
def splitEq (d : String) : String × String :=
  match splitAtChar '=' d.toList with
  | some (pre, post) => (String.mk pre, String.mk post)
  | none => (d, "")

/-- The parameter-binding loop of `callFunctionWithNamespace` (part_002):
declared names bind positionally; a `name=default` declaration falls back to
the default when the call is short; a plain declaration with no corresponding
positional argument binds nothing. -/
def bindFunctionArgs : List String → List String → Nat → Scope → Scope
  | [], _, _, s => s
  | d :: rest, callArgs, i, s =>
    let s' :=
      if d.toList.contains '=' then
        let nameDefault := splitEq d
        if i < callArgs.length then s.set nameDefault.1 [callArgs.getD i ""]
        else s.set nameDefault.1 [nameDefault.2]
      else
        if i < callArgs.length then s.set d [callArgs.getD i ""] else s
    bindFunctionArgs rest callArgs (i + 1) s'

/-- The numbered-extra-argument loop of `callFunctionWithNamespace`:
arguments beyond the declared names bind as `$<i+1>`. -/
def bindExtraAux : Nat → List String → Scope → Scope
  | _, [], s => s
  | i, a :: rest, s => bindExtraAux (i + 1) rest (s.set (toString (i + 1)) [a])

/-- The child scope built at function entry (part_002): a fresh child of the
caller, the root data blocks copied in, the namespace context set, declared
parameters and numbered extras bound. -/
def functionChildScope (fn : Block) (args : List String) (ns : String)
    (s : Scope) : Scope :=
  let root := s.getRootScope
  let child := ((s.child).withData root.data).withCurrentNamespace ns
  let bound := bindFunctionArgs fn.args args 0 child
  bindExtraAux fn.args.length (args.drop fn.args.length) bound

/-- The variable copy-back at function exit (part_002): every binding of the
callee's final variable map is written into the caller with `Scope.Set`. -/
def copyBack (calleeVars : List (String × Value)) (s : Scope) : Scope :=
  calleeVars.foldl (fun sc p => sc.set p.1 p.2) s

/-- The `else`-block search of `evalIf` (part_002): the first nested block
item labelled `"else"`. -/
def findElseBlock : List Item → Option Block
  | [] => none
  | .blk b :: rest => if b.label = "else" then some b else findElseBlock rest
  | _ :: rest => findElseBlock rest

/-- The outcome of running one loop body (the `switch result.HaltType`
blocks of `evalFor` / `evalWhile` in part_002). -/
inductive LoopSignal where
  | finished
  | continueNext
  | breakOut (r : Result)
  | propagate (r : Result)

mutual

/-- The body loop of `Evaluator.evalBlock` (part_002): commands, pipelines
and nested blocks in order; an error or a halt stops the block and is
returned; otherwise the block yields `Result{Status: 0}`. -/
def evalItems (B : BuiltinTable) (O : CsOracle) :
    Nat → List Item → Scope → EvalOut
  | 0, _, s => (fuelErr, s, [])
  | _fuel + 1, [], s => ({ status := 0 }, s, [])
  | fuel + 1, item :: rest, s =>
    let step : EvalOut :=
      match item with
      | .cmd c => evalCommand B O fuel c s
      | .pipe cmds => evalPipeline B O fuel cmds s
      | .blk b =>
        if b.type = .customBlock then evalControlStructure B O fuel b s
        else evalBlock B O fuel b s
    let (r, s', tr) := step
    if r.error ≠ none ∨ r.halt then (r, s', tr)
    else
      let (r2, s2, tr2) := evalItems B O fuel rest s'
      (r2, s2, tr ++ tr2)

/-- Go `Evaluator.evalBlock` (part_002). -/
def evalBlock (B : BuiltinTable) (O : CsOracle) :
    Nat → Block → Scope → EvalOut
  | 0, _, s => (fuelErr, s, [])
  | fuel + 1, b, s => evalItems B O fuel b.body s

/-- Go `Evaluator.evalCommand` (part_002): evaluate the arguments (an argument
error returns immediately, after updating `status`); resolve and invoke the
verb; update `status`; apply the `spawn` status fix; apply the error policy.
Redirection setup/teardown is omitted (I/O). -/
def evalCommand (B : BuiltinTable) (O : CsOracle) :
    Nat → Cmd → Scope → EvalOut
  | 0, _, s => (fuelErr, s, [])
  | fuel + 1, c, s =>
    match evalArgs O fuel c.args s with
    | .error err =>
      let result : Result := { error := some err }
      (result, updateStatus result s, [])
    | .ok args =>
      let (result0, s1, tr) := invokeResolved B O fuel c args s
      let s2 := updateStatus result0 s1
      let result :=
        if c.verb = "spawn" ∧ result0.error = none then { result0 with status := 0 }
        else result0
      if result.error ≠ none ∨ result.status ≠ 0 then
        if c.policy = .ignoreError then
          ({ status := result.status }, s2, tr)
        else if c.policy = .fallbackOnError ∧ c.fallback.isSome then
          match c.fallback with
          | some fb =>
            let (_, s3, tr2) := evalCommand B O fuel fb s2
            ({ status := 0 }, s3, tr ++ tr2)
          | none => (result, s2, tr)
        else if c.policy = .tryFallbackHalt ∧ c.fallback.isSome then
          match c.fallback with
          | some fb =>
            let (_, s3, tr2) := evalCommand B O fuel fb s2
            ({ status := result.status, halt := true }, s3, tr ++ tr2)
          | none => (result, s2, tr)
        else if c.policy = .failFast then
          ({ result with halt := true }, s2, tr)
        else (result, s2, tr)
      else (result, s2, tr)

/-- The verb resolution step of `evalCommand` (part_002): a root-scope
function, else a function of the current namespace context, else
`handleNonLocalFunction`.  Each actual invocation is recorded in the trace. -/
def invokeResolved (B : BuiltinTable) (O : CsOracle) :
    Nat → Cmd → List Value → Scope → EvalOut
  | 0, _, _, s => (fuelErr, s, [])
  | fuel + 1, c, args, s =>
    let strArgs := args.map Value.string
    match alookup s.getRootScope.functions c.verb with
    | some fn =>
      let (r, s', tr) := callFunctionWithNamespace B O fuel fn strArgs "" s
      (r, s', c.verb :: tr)
    | none =>
      if s.currentNamespace ≠ "" then
        match alookup s.getRootScope.namespaces s.currentNamespace with
        | some blocks =>
          match alookup blocks c.verb with
          | some fn =>
            let (r, s', tr) := callFunctionWithNamespace B O fuel fn strArgs "" s
            (r, s', c.verb :: tr)
          | none => handleNonLocalFunction B O fuel c args s
        | none => handleNonLocalFunction B O fuel c args s
      else handleNonLocalFunction B O fuel c args s

/-- Go `Evaluator.handleNonLocalFunction` (part_002): dotted verbs resolve
through the imported namespaces, otherwise the builtin table is consulted,
otherwise an "unknown command" error is produced. -/
def handleNonLocalFunction (B : BuiltinTable) (O : CsOracle) :
    Nat → Cmd → List Value → Scope → EvalOut
  | 0, _, _, s => (fuelErr, s, [])
  | fuel + 1, c, args, s =>
    if c.verb.toList.contains '.' then
      let parts := (List.splitOn '.' c.verb.toList).map String.mk
      if parts.length = 2 then
        let nsName := parts.getD 0 ""
        let functionName := parts.getD 1 ""
        match alookup s.getRootScope.namespaces nsName with
        | some blocks =>
          match alookup blocks functionName with
          | some fn =>
            let (r, s', tr) :=
              callFunctionWithNamespace B O fuel fn (args.map Value.string) nsName s
            (r, s', c.verb :: tr)
          | none =>
            ({ error := some ("function '" ++ functionName ++
                "' not found in namespace '" ++ nsName ++ "'") }, s, [])
        | none =>
          ({ error := some ("namespace '" ++ nsName ++ "' not found") }, s, [])
      else
        ({ error := some ("invalid namespaced function call: " ++ c.verb) }, s, [])
    else
      match B c.verb with
      | some bf =>
        let (r, s') := bf args s
        (r, s', [c.verb])
      | none =>
        ({ error := some ("unknown command: " ++ c.verb) }, s, [])

/-- Go `Evaluator.callFunctionWithNamespace` (part_002): run the body in a fresh
child scope, copy every callee variable back into the caller, and convert a
`ReturnHalt` into a non-halting result (other halt kinds propagate). -/
def callFunctionWithNamespace (B : BuiltinTable) (O : CsOracle) :
    Nat → Block → List String → String → Scope → EvalOut
  | 0, _, _, _, s => (fuelErr, s, [])
  | fuel + 1, fn, args, ns, s =>
    let (result, sf, tr) := evalBlock B O fuel fn (functionChildScope fn args ns s)
    let caller := copyBack sf.vars s
    let result' :=
      if result.halt ∧ result.haltType = .returnHalt then
        { result with halt := false, haltType := .noHalt }
      else result
    (result', caller, tr)

/-- Go `Evaluator.evalControlStructure` (part_002): dispatch on the label. -/
def evalControlStructure (B : BuiltinTable) (O : CsOracle) :
    Nat → Block → Scope → EvalOut
  | 0, _, s => (fuelErr, s, [])
  | fuel + 1, b, s =>
    if b.label = "if" then evalIf B O fuel b s
    else if b.label = "for" then evalFor B O fuel b s
    else if b.label = "while" then evalWhile B O fuel b s
    else evalBlock B O fuel b s

/-- Go `Evaluator.evalIf` (part_002): build a synthetic condition command from
the header args (`$`-prefixed args become variable references), run it with
`FailFast`, then run the then-arm (up to the first `else` block) or the
`else` block. -/
def evalIf (B : BuiltinTable) (O : CsOracle) :
    Nat → Block → Scope → EvalOut
  | 0, _, s => (fuelErr, s, [])
  | fuel + 1, b, s =>
    match b.args with
    | [] => ({ error := some "if: missing condition" }, s, [])
    | condVerb :: restArgs =>
      let condArgs := restArgs.map (fun a =>
        match a.toList with
        | '$' :: nm => Expr.variableExpr (String.mk nm) none
        | _ => Expr.literalExpr a)
      let condCmd : Cmd := .mk condVerb condArgs .failFast none
      let (condR, s1, tr1) := evalCommand B O fuel condCmd s
      if condR.status = 0 then
        let (r, s2, tr2) := evalIfBody B O fuel b.body s1
        (r, s2, tr1 ++ tr2)
      else
        match findElseBlock b.body with
        | some eb =>
          let (r, s2, tr2) := evalBlock B O fuel eb s1
          (r, s2, tr1 ++ tr2)
        | none => ({ status := 0 }, s1, tr1)

/-- The then-arm loop of `evalIf` (part_002): run the body items until the
first `else` block; errors and all halt kinds propagate out of `if`. -/
def evalIfBody (B : BuiltinTable) (O : CsOracle) :
    Nat → List Item → Scope → EvalOut
  | 0, _, s => (fuelErr, s, [])
  | _fuel + 1, [], s => ({ status := 0 }, s, [])
  | fuel + 1, item :: rest, s =>
    match item with
    | .blk b =>
      if b.label = "else" then ({ status := 0 }, s, [])
      else
        let (r, s', tr) := evalControlStructure B O fuel b s
        if r.error ≠ none ∨ r.halt then (r, s', tr)
        else
          let (r2, s2, tr2) := evalIfBody B O fuel rest s'
          (r2, s2, tr ++ tr2)
    | .cmd c =>
      let (r, s', tr) := evalCommand B O fuel c s
      if r.error ≠ none ∨ r.halt then (r, s', tr)
      else
        let (r2, s2, tr2) := evalIfBody B O fuel rest s'
        (r2, s2, tr ++ tr2)
    | .pipe cmds =>
      let (r, s', tr) := evalPipeline B O fuel cmds s
      if r.error ≠ none ∨ r.halt then (r, s', tr)
      else
        let (r2, s2, tr2) := evalIfBody B O fuel rest s'
        (r2, s2, tr ++ tr2)

/-- Go `Evaluator.evalFor` (part_002): `for var in items…` iterates the literal
header items, binding the loop variable each round. -/
def evalFor (B : BuiltinTable) (O : CsOracle) :
    Nat → Block → Scope → EvalOut
  | 0, _, s => (fuelErr, s, [])
  | fuel + 1, b, s =>
    if b.args.length < 3 ∨ b.args.getD 1 "" ≠ "in" then
      ({ error := some "for: invalid syntax, expected 'for var in list'" }, s, [])
    else
      forItems B O fuel (b.args.getD 0 "") (b.args.drop 2) b.body s

/-- The item loop of `evalFor` (part_002). -/
def forItems (B : BuiltinTable) (O : CsOracle) :
    Nat → String → List String → List Item → Scope → EvalOut
  | 0, _, _, _, s => (fuelErr, s, [])
  | _fuel + 1, _, [], _, s => ({ status := 0 }, s, [])
  | fuel + 1, varName, it :: rest, body, s =>
    let s0 := s.set varName [it]
    match runLoopBody B O fuel body s0 with
    | (.finished, s1, tr) =>
      let (r, s2, tr2) := forItems B O fuel varName rest body s1
      (r, s2, tr ++ tr2)
    | (.continueNext, s1, tr) =>
      let (r, s2, tr2) := forItems B O fuel varName rest body s1
      (r, s2, tr ++ tr2)
    | (.breakOut r, s1, tr) => (r, s1, tr)
    | (.propagate r, s1, tr) => (r, s1, tr)

/-- The shared loop-body walk of `evalFor` / `evalWhile` (part_002).  When an
item halts, the `switch result.HaltType` distinguishes break (end the loop
with a fresh `Result{Status: …}`), continue (next iteration), and
return/exit (propagate); a halting result whose `HaltType` is `NoHalt`
matches no case of the switch, so execution FALLS THROUGH to the next body
item. -/
def runLoopBody (B : BuiltinTable) (O : CsOracle) :
    Nat → List Item → Scope → LoopSignal × Scope × List String
  | 0, _, s => (.propagate fuelErr, s, [])
  | _fuel + 1, [], s => (.finished, s, [])
  | fuel + 1, item :: rest, s =>
    let step : EvalOut :=
      match item with
      | .cmd c => evalCommand B O fuel c s
      | .pipe cmds => evalPipeline B O fuel cmds s
      | .blk b => evalControlStructure B O fuel b s
    let (r, s', tr) := step
    if r.error ≠ none then (.propagate r, s', tr)
    else if r.halt then
      match r.haltType with
      | .breakHalt => (.breakOut { status := r.status }, s', tr)
      | .continueHalt => (.continueNext, s', tr)
      | .returnHalt => (.propagate r, s', tr)
      | .exitHalt => (.propagate r, s', tr)
      | .noHalt =>
        let (sig, s2, tr2) := runLoopBody B O fuel rest s'
        (sig, s2, tr ++ tr2)
    else
      let (sig, s2, tr2) := runLoopBody B O fuel rest s'
      (sig, s2, tr ++ tr2)

/-- Go `Evaluator.evalWhile` (part_002): evaluate the condition as a synthetic
command (all header args literal), stop when its status is non-zero,
otherwise run the body with the loop halt discipline and repeat. -/
def evalWhile (B : BuiltinTable) (O : CsOracle) :
    Nat → Block → Scope → EvalOut
  | 0, _, s => (fuelErr, s, [])
  | fuel + 1, b, s =>
    match b.args with
    | [] => ({ status := 0 }, s, [])
    | condVerb :: restArgs =>
      let condCmd : Cmd :=
        .mk condVerb (restArgs.map Expr.literalExpr) .failFast none
      let (condR, s1, tr1) := evalCommand B O fuel condCmd s
      if condR.status ≠ 0 then ({ status := 0 }, s1, tr1)
      else
        match runLoopBody B O fuel b.body s1 with
        | (.finished, s2, tr2) =>
          let (r, s3, tr3) := evalWhile B O fuel b s2
          (r, s3, tr1 ++ (tr2 ++ tr3))
        | (.continueNext, s2, tr2) =>
          let (r, s3, tr3) := evalWhile B O fuel b s2
          (r, s3, tr1 ++ (tr2 ++ tr3))
        | (.breakOut r, s2, tr2) => (r, s2, tr1 ++ tr2)
        | (.propagate r, s2, tr2) => (r, s2, tr1 ++ tr2)

/-- Go `Evaluator.evalPipeline` (part_002): an empty pipeline succeeds; a
one-command pipeline runs the command and then sets `status` to the single
collected code; longer pipelines run stage by stage collecting one decimal
exit code per stage (pipes and stream redirection are I/O and omitted). -/
def evalPipeline (B : BuiltinTable) (O : CsOracle) :
    Nat → List Cmd → Scope → EvalOut
  | 0, _, s => (fuelErr, s, [])
  | _fuel + 1, [], s => ({ status := 0 }, s, [])
  | fuel + 1, [c], s =>
    let (r, s1, tr) := evalCommand B O fuel c s
    (r, s1.set "status" [toString r.status], tr)
  | fuel + 1, c1 :: c2 :: rest, s =>
    evalPipelineAux B O fuel (c1 :: c2 :: rest) s [] { status := 0 }

/-- The stage loop of `evalPipeline` (part_002): each stage appends
`strconv.Itoa(result.Status)` to the collected codes; a hard error stops the
pipeline after writing the codes collected so far into `status`; after the
last stage the full code list is written into `status` and the last stage's
result is returned. -/
def evalPipelineAux (B : BuiltinTable) (O : CsOracle) :
    Nat → List Cmd → Scope → List String → Result → EvalOut
  | 0, _, s, _, _ => (fuelErr, s, [])
  | _fuel + 1, [], s, exitCodes, lastResult =>
    (lastResult, s.set "status" exitCodes, [])
  | fuel + 1, c :: rest, s, exitCodes, _ =>
    let (r, s1, tr) := evalCommand B O fuel c s
    let exitCodes' := exitCodes ++ [toString r.status]
    if r.error ≠ none then (r, s1.set "status" exitCodes', tr)
    else
      let (r2, s2, tr2) := evalPipelineAux B O fuel rest s1 exitCodes' r
      (r2, s2, tr ++ tr2)

end

/-- Go `Evaluator.callFunction` (part_002): `callFunctionWithNamespace` with an
empty namespace context. -/
def callFunction (B : BuiltinTable) (O : CsOracle) (fuel : Nat) (fn : Block)
    (args : List String) (s : Scope) : EvalOut :=
  callFunctionWithNamespace B O fuel fn args "" s

/-- The per-stage exit codes a pipeline run collects (`exitCodes` in the Go
source): one `strconv.Itoa(result.Status)` per executed stage, in stage
order, stopping after a stage with a hard error.  The fuel is threaded in
the same way as in `evalPipelineAux`. -/
def stageCodes (B : BuiltinTable) (O : CsOracle) :
    Nat → List Cmd → Scope → List String
  | 0, _, _ => []
  | _fuel + 1, [], _ => []
  | fuel + 1, c :: rest, s =>
    let (r, s1, _) := evalCommand B O fuel c s
    toString r.status ::
      (if r.error ≠ none then [] else stageCodes B O fuel rest s1)

end Box

namespace IB

/-!
Embedding of the second evaluator, `src/internal/box/eval.go`.  Its `Scope`,
`Value`, expression evaluation and `expandVariables` are textually the same
as the part_002 versions (modulo the `HeaderLookupExpr` spelling of
`BlockLookupExpr` and the absence of the `CurrentNamespace` field, which this
evaluator never consults), so those definitions are shared with namespace
`Box`; the differing evaluator functions are translated here.  The `Result`
of eval.go has NO halt type.
-/

open Box (Value Scope BuiltinTable CsOracle Cmd Item Block Expr ErrorPolicy
  BlockType evalArgs functionChildScope)

/-- Go `type Result struct` of eval.go: status, halt flag, error — no halt
kind. -/
structure Result where
  status : Int := 0
  halt : Bool := false
  error : Option String := none
  deriving DecidableEq, Repr

/-- eval.go's `BuiltinFunc`, over its own `Result`. -/
abbrev BuiltinFunc := List Value → Scope → Result × Scope

/-- eval.go's builtin dispatch table. -/
abbrev Table := String → Option BuiltinFunc

/-- Go `Evaluator.updateStatus` (eval.go). -/
def updateStatus (r : Result) (s : Scope) : Scope :=
  s.set "status" [toString r.status]

abbrev EvalOut := Result × Scope × List String

def fuelErr : Result := { error := some "out of fuel" }

mutual

/-- The body loop of `Evaluator.evalBlock` (eval.go). -/
def evalItems (B : Table) (O : CsOracle) :
    Nat → List Item → Scope → EvalOut
  | 0, _, s => (fuelErr, s, [])
  | _fuel + 1, [], s => ({ status := 0 }, s, [])
  | fuel + 1, item :: rest, s =>
    let step : EvalOut :=
      match item with
      | .cmd c => evalCommand B O fuel c s
      | .pipe cmds => evalPipeline B O fuel cmds s
      | .blk b =>
        if b.type = .customBlock then evalControlStructure B O fuel b s
        else evalBlock B O fuel b s
    let (r, s', tr) := step
    if r.error ≠ none ∨ r.halt then (r, s', tr)
    else
      let (r2, s2, tr2) := evalItems B O fuel rest s'
      (r2, s2, tr ++ tr2)

/-- Go `Evaluator.evalBlock` (eval.go). -/
def evalBlock (B : Table) (O : CsOracle) :
    Nat → Block → Scope → EvalOut
  | 0, _, s => (fuelErr, s, [])
  | fuel + 1, b, s => evalItems B O fuel b.body s

/-- Go `Evaluator.evalCommand` (eval.go).  Differences from part_002: the verb
resolution has no current-namespace step, there is no `spawn` status fix,
and — decisive for the `!` policy — `TryFallbackHalt` halts with the
FALLBACK's status (`Result{Status: fallbackResult.Status, Halt: true}`). -/
def evalCommand (B : Table) (O : CsOracle) :
    Nat → Cmd → Scope → EvalOut
  | 0, _, s => (fuelErr, s, [])
  | fuel + 1, c, s =>
    match evalArgs O fuel c.args s with
    | .error err =>
      let result : Result := { error := some err }
      (result, updateStatus result s, [])
    | .ok args =>
      let (result, s1, tr) :=
        match alookup s.getRootScope.functions c.verb with
        | some fn =>
          let (r, s', tr) := callFunction B O fuel fn (args.map Value.string) s
          (r, s', c.verb :: tr)
        | none =>
          if c.verb.toList.contains '.' then
            let parts := (List.splitOn '.' c.verb.toList).map String.mk
            if parts.length = 2 then
              let nsName := parts.getD 0 ""
              let functionName := parts.getD 1 ""
              match alookup s.getRootScope.namespaces nsName with
              | some blocks =>
                match alookup blocks functionName with
                | some fn =>
                  let (r, s', tr) :=
                    callFunction B O fuel fn (args.map Value.string) s
                  (r, s', c.verb :: tr)
                | none =>
                  (({ error := some ("function '" ++ functionName ++
                      "' not found in namespace '" ++ nsName ++ "'") } : Result),
                    s, [])
              | none =>
                (({ error := some ("namespace '" ++ nsName ++ "' not found") } :
                    Result), s, [])
            else
              (({ error := some ("invalid namespaced function call: " ++ c.verb) } :
                  Result), s, [])
          else
            match B c.verb with
            | some bf =>
              let (r, s') := bf args s
              (r, s', [c.verb])
            | none =>
              (({ error := some ("unknown command: " ++ c.verb) } : Result), s, [])
      let s2 := updateStatus result s1
      if result.error ≠ none ∨ result.status ≠ 0 then
        if c.policy = .ignoreError then
          ({ status := result.status }, s2, tr)
        else if c.policy = .fallbackOnError ∧ c.fallback.isSome then
          match c.fallback with
          | some fb =>
            let (_, s3, tr2) := evalCommand B O fuel fb s2
            ({ status := 0 }, s3, tr ++ tr2)
          | none => (result, s2, tr)
        else if c.policy = .tryFallbackHalt ∧ c.fallback.isSome then
          match c.fallback with
          | some fb =>
            let (fallbackResult, s3, tr2) := evalCommand B O fuel fb s2
            ({ status := fallbackResult.status, halt := true }, s3, tr ++ tr2)
          | none => (result, s2, tr)
        else if c.policy = .failFast then
          ({ result with halt := true }, s2, tr)
        else (result, s2, tr)
      else (result, s2, tr)

/-- Go `Evaluator.callFunction` (eval.go): run the body in a child scope (root
data copied, parameters and numbered extras bound exactly as in part_002,
but no namespace context exists) and copy ONLY `status` back to the caller
(a missing `status` copies the nil value); the result is returned unchanged
— there is no `ReturnHalt` conversion. -/
def callFunction (B : Table) (O : CsOracle) :
    Nat → Block → List String → Scope → EvalOut
  | 0, _, _, s => (fuelErr, s, [])
  | fuel + 1, fn, args, s =>
    let (result, sf, tr) := evalBlock B O fuel fn (functionChildScope fn args "" s)
    let caller := s.set "status" ((alookup sf.vars "status").getD [])
    (result, caller, tr)

/-- Go `Evaluator.evalControlStructure` (eval.go). -/
def evalControlStructure (B : Table) (O : CsOracle) :
    Nat → Block → Scope → EvalOut
  | 0, _, s => (fuelErr, s, [])
  | fuel + 1, b, s =>
    if b.label = "if" then evalIf B O fuel b s
    else if b.label = "for" then evalFor B O fuel b s
    else if b.label = "while" then evalWhile B O fuel b s
    else evalBlock B O fuel b s

/-- Go `Evaluator.evalIf` (eval.go): the condition command's arguments are all
literals (no `$` special case, unlike part_002). -/
def evalIf (B : Table) (O : CsOracle) :
    Nat → Block → Scope → EvalOut
  | 0, _, s => (fuelErr, s, [])
  | fuel + 1, b, s =>
    match b.args with
    | [] => ({ error := some "if: missing condition" }, s, [])
    | condVerb :: restArgs =>
      let condCmd : Cmd :=
        .mk condVerb (restArgs.map Expr.literalExpr) .failFast none
      let (condR, s1, tr1) := evalCommand B O fuel condCmd s
      if condR.status = 0 then
        let (r, s2, tr2) := evalIfBody B O fuel b.body s1
        (r, s2, tr1 ++ tr2)
      else
        match Box.findElseBlock b.body with
        | some eb =>
          let (r, s2, tr2) := evalBlock B O fuel eb s1
          (r, s2, tr1 ++ tr2)
        | none => ({ status := 0 }, s1, tr1)

/-- The then-arm loop of `evalIf` (eval.go): stop at the first `else` block;
an error or any halt propagates. -/
def evalIfBody (B : Table) (O : CsOracle) :
    Nat → List Item → Scope → EvalOut
  | 0, _, s => (fuelErr, s, [])
  | _fuel + 1, [], s => ({ status := 0 }, s, [])
  | fuel + 1, item :: rest, s =>
    match item with
    | .blk b =>
      if b.label = "else" then ({ status := 0 }, s, [])
      else
        let (r, s', tr) := evalControlStructure B O fuel b s
        if r.error ≠ none ∨ r.halt then (r, s', tr)
        else
          let (r2, s2, tr2) := evalIfBody B O fuel rest s'
          (r2, s2, tr ++ tr2)
    | .cmd c =>
      let (r, s', tr) := evalCommand B O fuel c s
      if r.error ≠ none ∨ r.halt then (r, s', tr)
      else
        let (r2, s2, tr2) := evalIfBody B O fuel rest s'
        (r2, s2, tr ++ tr2)
    | .pipe cmds =>
      let (r, s', tr) := evalPipeline B O fuel cmds s
      if r.error ≠ none ∨ r.halt then (r, s', tr)
      else
        let (r2, s2, tr2) := evalIfBody B O fuel rest s'
        (r2, s2, tr ++ tr2)

/-- The body walk of `evalFor` / `evalWhile` (eval.go): each item runs in
order; an error or ANY halt returns the result as it is (eval.go has no halt
kinds, so `break` would also propagate out of the loop). -/
def evalBodyItems (B : Table) (O : CsOracle) :
    Nat → List Item → Scope → EvalOut
  | 0, _, s => (fuelErr, s, [])
  | _fuel + 1, [], s => ({ status := 0 }, s, [])
  | fuel + 1, item :: rest, s =>
    let step : EvalOut :=
      match item with
      | .cmd c => evalCommand B O fuel c s
      | .pipe cmds => evalPipeline B O fuel cmds s
      | .blk b => evalControlStructure B O fuel b s
    let (r, s', tr) := step
    if r.error ≠ none ∨ r.halt then (r, s', tr)
    else
      let (r2, s2, tr2) := evalBodyItems B O fuel rest s'
      (r2, s2, tr ++ tr2)

/-- Go `Evaluator.evalFor` (eval.go): only a `for var glob items…` header
iterates several items; any other third argument iterates once over the
literal itself. -/
def evalFor (B : Table) (O : CsOracle) :
    Nat → Block → Scope → EvalOut
  | 0, _, s => (fuelErr, s, [])
  | fuel + 1, b, s =>
    if b.args.length < 3 ∨ b.args.getD 1 "" ≠ "in" then
      ({ error := some "for: invalid syntax, expected 'for var in list'" }, s, [])
    else
      let listExpr := b.args.getD 2 ""
      let items :=
        if listExpr = "glob" ∧ 3 < b.args.length then b.args.drop 3
        else [listExpr]
      forItems B O fuel (b.args.getD 0 "") items b.body s

/-- The item loop of eval.go's `evalFor`. -/
def forItems (B : Table) (O : CsOracle) :
    Nat → String → List String → List Item → Scope → EvalOut
  | 0, _, _, _, s => (fuelErr, s, [])
  | _fuel + 1, _, [], _, s => ({ status := 0 }, s, [])
  | fuel + 1, varName, it :: rest, body, s =>
    let s0 := s.set varName [it]
    let (r, s1, tr) := evalBodyItems B O fuel body s0
    if r.error ≠ none ∨ r.halt then (r, s1, tr)
    else
      let (r2, s2, tr2) := forItems B O fuel varName rest body s1
      (r2, s2, tr ++ tr2)

/-- Go `Evaluator.evalWhile` (eval.go). -/
def evalWhile (B : Table) (O : CsOracle) :
    Nat → Block → Scope → EvalOut
  | 0, _, s => (fuelErr, s, [])
  | fuel + 1, b, s =>
    match b.args with
    | [] => ({ status := 0 }, s, [])
    | condVerb :: restArgs =>
      let condCmd : Cmd :=
        .mk condVerb (restArgs.map Expr.literalExpr) .failFast none
      let (condR, s1, tr1) := evalCommand B O fuel condCmd s
      if condR.status ≠ 0 then ({ status := 0 }, s1, tr1)
      else
        let (r, s2, tr2) := evalBodyItems B O fuel b.body s1
        if r.error ≠ none ∨ r.halt then (r, s2, tr1 ++ tr2)
        else
          let (r3, s3, tr3) := evalWhile B O fuel b s2
          (r3, s3, tr1 ++ (tr2 ++ tr3))

/-- Go `Evaluator.evalPipeline` (eval.go): same stage and `status` collection
logic as part_002. -/
def evalPipeline (B : Table) (O : CsOracle) :
    Nat → List Cmd → Scope → EvalOut
  | 0, _, s => (fuelErr, s, [])
  | _fuel + 1, [], s => ({ status := 0 }, s, [])
  | fuel + 1, [c], s =>
    let (r, s1, tr) := evalCommand B O fuel c s
    (r, s1.set "status" [toString r.status], tr)
  | fuel + 1, c1 :: c2 :: rest, s =>
    evalPipelineAux B O fuel (c1 :: c2 :: rest) s [] { status := 0 }

/-- The stage loop of eval.go's `evalPipeline`. -/
def evalPipelineAux (B : Table) (O : CsOracle) :
    Nat → List Cmd → Scope → List String → Result → EvalOut
  | 0, _, s, _, _ => (fuelErr, s, [])
  | _fuel + 1, [], s, exitCodes, lastResult =>
    (lastResult, s.set "status" exitCodes, [])
  | fuel + 1, c :: rest, s, exitCodes, _ =>
    let (r, s1, tr) := evalCommand B O fuel c s
    let exitCodes' := exitCodes ++ [toString r.status]
    if r.error ≠ none then (r, s1.set "status" exitCodes', tr)
    else
      let (r2, s2, tr2) := evalPipelineAux B O fuel rest s1 exitCodes' r
      (r2, s2, tr ++ tr2)

end

end IB

namespace IBLex

/-!
Embedding of the stateful lexer of `src/internal/box/parser.go`.  The Go
lexer keeps the input string with a cursor; here the state carries the
remaining input together with the line and column, and each read helper
consumes from the front.  `l.current` is 0 both at the end of the input and
at an actual NUL byte, which the model reproduces by testing the head
character against `nulChar`.
-/

/-- The rune 0 that Go uses as the end-of-input sentinel. -/
def nulChar : Char := Char.ofNat 0

/-- The backquote character. -/
def backTick : Char := Char.ofNat 96

/-- Go `type TokenKind int` (parser.go): note there is NO newline kind. -/
inductive TokenKind where
  | EOF
  | WORD
  | SINGLE_QUOTE
  | DOUBLE_QUOTE
  | COMMAND_SUB
  | VARIABLE
  | HEADER_LOOKUP
  | REDIRECT
  | PIPELINE
  | IGNORE_ERROR
  | HEADER_START
  | BLOCK_END
  | COMMENT
  deriving DecidableEq, Repr

/-- Go `type Token struct` (parser.go). -/
structure Token where
  kind : TokenKind
  value : String
  line : Nat
  column : Nat
  deriving DecidableEq, Repr

/-- The lexer state: remaining input plus current line and column. -/
structure LexState where
  rest : List Char
  line : Nat
  column : Nat
  deriving DecidableEq, Repr

/-- Go `NewLexer`: line 1, column 1. -/
def initLex (s : String) : LexState := ⟨s.toList, 1, 1⟩

/-- The reserved punctuation of `readWord`
(`strings.ContainsRune("|>?[]#'\"$\x60", …)`). -/
def lexReserved (c : Char) : Bool :=
  c ∈ ['|', '>', '?', '[', ']', '#', '\'', '"', '$', backTick]

/-- Go `Lexer.skipWhitespace`: consume while `unicode.IsSpace` holds (newlines
included — they are NOT preserved as tokens). -/
def skipWS : List Char → Nat → Nat → List Char × Nat × Nat
  | [], l, c => ([], l, c)
  | ch :: rest, l, c =>
    if goIsSpace ch then
      if ch = '\n' then skipWS rest (l + 1) 1 else skipWS rest l (c + 1)
    else (ch :: rest, l, c)

/-- Go `Lexer.readWord`: a maximal run of bytes stopping at end/NUL, white
space, or reserved punctuation.  Returns the word and the rest state. -/
def readWord : List Char → Nat → Nat → List Char × List Char × Nat × Nat
  | [], l, c => ([], [], l, c)
  | ch :: rest, l, c =>
    if ch = nulChar ∨ goIsSpace ch ∨ lexReserved ch then ([], ch :: rest, l, c)
    else
      let (w, r, l', c') := readWord rest l (c + 1)
      (ch :: w, r, l', c')

/-- The tail of `Lexer.readComment`: consume up to (excluding) the next
newline or NUL. -/
def readUntilNL : List Char → Nat → Nat → List Char × List Char × Nat × Nat
  | [], l, c => ([], [], l, c)
  | ch :: rest, l, c =>
    if ch = '\n' ∨ ch = nulChar then ([], ch :: rest, l, c)
    else
      let (v, r, l', c') := readUntilNL rest l (c + 1)
      (ch :: v, r, l', c')

/-- The body of `Lexer.readSingleQuote` (opening quote already skipped):
opaque bytes up to the closing quote, which is consumed when present. -/
def readSQ : List Char → Nat → Nat → List Char × List Char × Nat × Nat
  | [], l, c => ([], [], l, c)
  | ch :: rest, l, c =>
    if ch = '\'' then ([], rest, l, c + 1)
    else if ch = nulChar then ([], ch :: rest, l, c)
    else
      let (v, r, l', c') :=
        if ch = '\n' then readSQ rest (l + 1) 1 else readSQ rest l (c + 1)
      (ch :: v, r, l', c')

/-- The body of `Lexer.readDoubleQuote` (opening quote already skipped):
C-style escapes are applied now; an unknown escape keeps the escaped rune. -/
def readDQ : List Char → Nat → Nat → List Char × List Char × Nat × Nat
  | [], l, c => ([], [], l, c)
  | ch :: rest, l, c =>
    if ch = '"' then ([], rest, l, c + 1)
    else if ch = nulChar then ([], ch :: rest, l, c)
    else if ch = '\\' then
      match rest with
      | [] => ([nulChar], [], l, c + 2)
      | e :: rest2 =>
        let esc :=
          if e = 'n' then '\n'
          else if e = 't' then '\t'
          else if e = 'r' then '\r'
          else if e = '\\' then '\\'
          else if e = '"' then '"'
          else e
        let (v, r, l', c') :=
          if e = '\n' then readDQ rest2 (l + 1) 1 else readDQ rest2 l (c + 2)
        (esc :: v, r, l', c')
    else
      let (v, r, l', c') :=
        if ch = '\n' then readDQ rest (l + 1) 1 else readDQ rest l (c + 1)
      (ch :: v, r, l', c')

/-- The backquote branch of `Lexer.readCommandSub` (opening tick skipped):
bytes up to the closing tick, which is consumed when present. -/
def readTick : List Char → Nat → Nat → List Char × List Char × Nat × Nat
  | [], l, c => ([], [], l, c)
  | ch :: rest, l, c =>
    if ch = backTick then ([], rest, l, c + 1)
    else if ch = nulChar then ([], ch :: rest, l, c)
    else
      let (v, r, l', c') :=
        if ch = '\n' then readTick rest (l + 1) 1 else readTick rest l (c + 1)
      (ch :: v, r, l', c')

/-- The `$(…)` branch of `Lexer.readCommandSub` (the `$(` already skipped):
nested parentheses balance; the matching `)` is consumed. -/
def readParen : List Char → Nat → Nat → Nat → List Char × List Char × Nat × Nat
  | [], _, l, c => ([], [], l, c)
  | ch :: rest, depth, l, c =>
    if ch = nulChar then ([], ch :: rest, l, c)
    else
      let depth' := if ch = '(' then depth + 1 else if ch = ')' then depth - 1 else depth
      if depth' = 0 then ([], rest, l, c + 1)
      else
        let (v, r, l', c') :=
          if ch = '\n' then readParen rest depth' (l + 1) 1
          else readParen rest depth' l (c + 1)
        (ch :: v, r, l', c')

/-- The identifier characters of `Lexer.readVariable` (the Go code uses
`unicode.IsLetter`/`IsDigit`; the model restricts the letter and digit
classes to ASCII, which covers every input the claims touch). -/
def varIdentChar (c : Char) : Bool :=
  ('a' ≤ c ∧ c ≤ 'z') ∨ ('A' ≤ c ∧ c ≤ 'Z') ∨ ('0' ≤ c ∧ c ≤ '9') ∨ c = '_'

/-- Consume an identifier run, tracking the column. -/
def readIdentRun : List Char → Nat → Nat → List Char × List Char × Nat × Nat
  | [], l, c => ([], [], l, c)
  | ch :: rest, l, c =>
    if varIdentChar ch then
      let (v, r, l', c') := readIdentRun rest l (c + 1)
      (ch :: v, r, l', c')
    else ([], ch :: rest, l, c)

/-- Consume up to and including a terminator character (used for the `[...]`
suffix of `readVariable`, for `${…}` and for `HEADER_START`); stops without
consuming at NUL or end. -/
def readThrough (term : Char) : List Char → Nat → Nat → List Char × List Char × Nat × Nat
  | [], l, c => ([], [], l, c)
  | ch :: rest, l, c =>
    if ch = nulChar then ([], ch :: rest, l, c)
    else if ch = term then ([ch], rest, l, c + 1)
    else
      let (v, r, l', c') :=
        if ch = '\n' then readThrough term rest (l + 1) 1
        else readThrough term rest l (c + 1)
      (ch :: v, r, l', c')

/-- Consume up to a terminator character, excluding it from the value but
consuming it when present (the `${…}` loop of `readVariable`); stops without
consuming at NUL or end. -/
def readUntilChar (term : Char) : List Char → Nat → Nat → List Char × List Char × Nat × Nat
  | [], l, c => ([], [], l, c)
  | ch :: rest, l, c =>
    if ch = term then ([], rest, l, c + 1)
    else if ch = nulChar then ([], ch :: rest, l, c)
    else
      let (v, r, l', c') :=
        if ch = '\n' then readUntilChar term rest (l + 1) 1
        else readUntilChar term rest l (c + 1)
      (ch :: v, r, l', c')

/-- The body of `Lexer.readVariable` (the `$` already skipped): `${…}`
content without the braces, or an identifier optionally followed by a
bracketed index (brackets kept). -/
def readVariableBody (rest : List Char) (l c : Nat) :
    List Char × List Char × Nat × Nat :=
  match rest with
  | '\x7b' :: rest2 =>
    let (v, r, l', c') := readUntilChar '\x7d' rest2 l (c + 1)
    (v, r, l', c')
  | _ =>
    let (name, r1, l1, c1) := readIdentRun rest l c
    match r1 with
    | '[' :: _ =>
      let (idx, r2, l2, c2) := readThrough ']' r1 l1 c1
      (name ++ idx, r2, l2, c2)
    | _ => (name, r1, l1, c1)

/-- Go `Lexer.NextToken` (parser.go): skip white space (newlines included!),
then dispatch on the current character.  A NUL current character — end of
input — yields EOF.  Note the default branch: `readWord` returns the empty
word WITHOUT advancing when the current character is reserved punctuation
not handled by an earlier case (`']'`), so the state does not change. -/
def nextToken (st : LexState) : Token × LexState :=
  let (r0, l0, c0) := skipWS st.rest st.line st.column
  match r0 with
  | [] => (⟨.EOF, "", l0, c0⟩, ⟨[], l0, c0⟩)
  | ch :: rest1 =>
    if ch = nulChar then (⟨.EOF, "", l0, c0⟩, ⟨r0, l0, c0⟩)
    else if ch = '#' then
      let (v, r, l, c) := readUntilNL rest1 l0 (c0 + 1)
      (⟨.COMMENT, String.mk v, l0, c0⟩, ⟨r, l, c⟩)
    else if ch = '\'' then
      let (v, r, l, c) := readSQ rest1 l0 (c0 + 1)
      (⟨.SINGLE_QUOTE, String.mk v, l0, c0⟩, ⟨r, l, c⟩)
    else if ch = '"' then
      let (v, r, l, c) := readDQ rest1 l0 (c0 + 1)
      (⟨.DOUBLE_QUOTE, String.mk v, l0, c0⟩, ⟨r, l, c⟩)
    else if ch = backTick then
      let (v, r, l, c) := readTick rest1 l0 (c0 + 1)
      (⟨.COMMAND_SUB, String.mk v, l0, c0⟩, ⟨r, l, c⟩)
    else if ch = '$' then
      match rest1 with
      | '(' :: rest2 =>
        let (v, r, l, c) := readParen rest2 1 l0 (c0 + 2)
        (⟨.COMMAND_SUB, String.mk v, l0, c0⟩, ⟨r, l, c⟩)
      | _ =>
        let (v, r, l, c) := readVariableBody rest1 l0 (c0 + 1)
        let kind : TokenKind :=
          if v.contains '.' then .HEADER_LOOKUP else .VARIABLE
        (⟨kind, String.mk v, l0, c0⟩, ⟨r, l, c⟩)
    else if ch = '|' then (⟨.PIPELINE, "|", l0, c0⟩, ⟨rest1, l0, c0 + 1⟩)
    else if ch = '>' then
      match rest1 with
      | '>' :: rest2 => (⟨.REDIRECT, ">>", l0, c0⟩, ⟨rest2, l0, c0 + 2⟩)
      | _ => (⟨.REDIRECT, ">", l0, c0⟩, ⟨rest1, l0, c0 + 1⟩)
    else if ch = '2' then
      match rest1 with
      | '>' :: rest2 => (⟨.REDIRECT, "2>", l0, c0⟩, ⟨rest2, l0, c0 + 2⟩)
      | _ =>
        let (v, r, l, c) := readWord r0 l0 c0
        (⟨.WORD, String.mk v, l0, c0⟩, ⟨r, l, c⟩)
    else if ch = '?' then (⟨.IGNORE_ERROR, "?", l0, c0⟩, ⟨rest1, l0, c0 + 1⟩)
    else if ch = '[' then
      let (v, r, l, c) := readThrough ']' r0 l0 c0
      (⟨.HEADER_START, String.mk v, l0, c0⟩, ⟨r, l, c⟩)
    else
      let (v, r, l, c) := readWord r0 l0 c0
      if String.mk v = "end" then (⟨.BLOCK_END, String.mk v, l0, c0⟩, ⟨r, l, c⟩)
      else (⟨.WORD, String.mk v, l0, c0⟩, ⟨r, l, c⟩)

/-- The first `n` tokens produced by repeatedly calling `NextToken`. -/
def tokensN : Nat → LexState → List Token
  | 0, _ => []
  | n + 1, st =>
    let (t, st') := nextToken st
    t :: tokensN n st'

end IBLex

namespace Box

/-- Go `strings.TrimSpace` over the character-list model: drop white space
from both ends. -/
def goTrimSpace (l : List Char) : List Char :=
  ((l.dropWhile goIsSpace).reverse.dropWhile goIsSpace).reverse

/-- The output post-processing of `executeCommandSubstitution` (identical in
part_002 and eval.go): `strings.TrimSpace` the captured bytes; an empty
trimmed output yields `Value{""}`; otherwise `strings.Split` on `"\n"`. -/
def processCommandSubOutput (out : List Char) : List (List Char) :=
  let outputStr := goTrimSpace out
  if outputStr = [] then [[]] else outputStr.splitOn '\n'

/-- Go `processCommandSubOutput` at the `String`/`Value` level. -/
def processOutputValue (out : String) : Value :=
  (processCommandSubOutput out.toList).map String.mk

/-- Modelled from the spec: "the resulting Value equals O with trailing
newlines trimmed (leading characters and non-newline trailing whitespace
preserved) and then split at the remaining embedded newlines". -/
def specCommandSubSplit (out : List Char) : List (List Char) :=
  ((out.reverse.dropWhile (· = '\n')).reverse).splitOn '\n'

theorem dropWhile_append_of_all {p : Char → Bool} :
    ∀ (l rest : List Char), (∀ c ∈ l, p c) →
      List.dropWhile p (l ++ rest) = List.dropWhile p rest := by
  intro l
  induction l with
  | nil => intro rest _; rfl
  | cons a t ih =>
    intro rest h
    have ha : p a := h a (by simp)
    simp only [List.cons_append, List.dropWhile_cons, ha, if_true]
    exact ih rest (fun c hc => h c (by simp [hc]))

theorem goTrimSpace_pad (s ws1 ws2 : List Char)
    (h1 : ∀ c ∈ ws1, goIsSpace c) (h2 : ∀ c ∈ ws2, goIsSpace c)
    (hh : ∀ c, s.head? = some c → goIsSpace c = false)
    (hl : ∀ c, s.getLast? = some c → goIsSpace c = false) :
    goTrimSpace (ws1 ++ (s ++ ws2)) = s := by
  unfold goTrimSpace
  rw [dropWhile_append_of_all ws1 (s ++ ws2) h1]
  cases s with
  | nil =>
    simp only [List.nil_append]
    have : List.dropWhile goIsSpace ws2 = [] := by
      have := dropWhile_append_of_all ws2 [] h2
      simpa using this
    simp [this]
  | cons c t =>
    have hc : goIsSpace c = false := hh c rfl
    simp only [List.cons_append, List.dropWhile_cons, hc, Bool.false_eq_true,
      if_false]
    rw [show c :: (t ++ ws2) = (c :: t) ++ ws2 from rfl, List.reverse_append]
    rw [dropWhile_append_of_all ws2.reverse (c :: t).reverse
      (fun x hx => h2 x (by simpa using hx))]
    have hrev : ((c :: t).reverse).head? = (c :: t).getLast? :=
      List.head?_reverse (c :: t)
    obtain ⟨d, r, hdr⟩ : ∃ d r, (c :: t).reverse = d :: r := by
      have hne : (c :: t).reverse ≠ [] := by simp
      cases hrecases : (c :: t).reverse with
      | nil => exact absurd hrecases hne
      | cons d r => exact ⟨d, r, rfl⟩
    have hd : goIsSpace d = false := by
      apply hl
      rw [← hrev, hdr]
      rfl
    rw [hdr]
    simp only [List.dropWhile_cons, hd, Bool.false_eq_true, if_false]
    rw [← hdr, List.reverse_reverse]

/-- Go `sep.intercalate` on at least two chunks starts with the first chunk. -/
theorem intercalate_cons_cons (sep a b : List Char) (t : List (List Char)) :
    sep.intercalate (a :: b :: t) = a ++ sep ++ sep.intercalate (b :: t) := by
  simp [List.intercalate, List.intersperse_cons_cons]

end Box

namespace Box

/-- No occurrence of `"$("` anywhere in the string. -/
def noDollarParen : List Char → Bool
  | '$' :: '(' :: _ => false
  | _ :: rest => noDollarParen rest
  | [] => true

theorem noDollarParen_cons {a : Char} {l : List Char}
    (h : noDollarParen (a :: l) = true) : noDollarParen l = true := by
  cases l with
  | nil => rfl
  | cons b t =>
    by_cases ha : a = '$'
    · subst ha
      by_cases hb : b = '('
      · subst hb; simp [noDollarParen] at h
      · simpa [noDollarParen, hb] using h
    · simpa [noDollarParen, ha] using h

theorem splitAtDollarParen_clean :
    ∀ (pre rest : List Char), noDollarParen pre = true →
      splitAtDollarParen (pre ++ '$' :: '(' :: rest) = some (pre, rest) := by
  intro pre
  induction pre with
  | nil => intro rest _; simp [splitAtDollarParen]
  | cons a pre' ih =>
    intro rest h
    cases pre' with
    | nil =>
      by_cases ha : a = '$' <;>
        simp [splitAtDollarParen, ha]
    | cons b pre'' =>
      have hab : ¬ (a = '$' ∧ b = '(') := by
        intro ⟨ha, hb⟩
        subst ha; subst hb
        simp [noDollarParen] at h
      have h' : noDollarParen (b :: pre'') = true := noDollarParen_cons h
      simp only [List.cons_append]
      rw [show splitAtDollarParen (a :: (b :: (pre'' ++ '$' :: '(' :: rest))) =
        (if a = '$' ∧ b = '(' then some ([], pre'' ++ '$' :: '(' :: rest)
         else
          match splitAtDollarParen (b :: (pre'' ++ '$' :: '(' :: rest)) with
          | some (p, r) => some (a :: p, r)
          | none => none) from rfl]
      rw [if_neg hab]
      have := ih rest h'
      simp only [List.cons_append] at this
      rw [this]

theorem matchParen_clean :
    ∀ (cmd post : List Char), '(' ∉ cmd → ')' ∉ cmd →
      matchParen (cmd ++ ')' :: post) 1 = some (cmd, post) := by
  intro cmd
  induction cmd with
  | nil => intro post _ _; simp [matchParen]
  | cons c t ih =>
    intro post ho hc
    have hco : ¬ c = '(' := fun hh => ho (by simp [hh])
    have hcc : ¬ c = ')' := fun hh => hc (by simp [hh])
    have ht : matchParen (t ++ ')' :: post) 1 = some (t, post) :=
      ih post (fun hh => ho (by simp [hh])) (fun hh => hc (by simp [hh]))
    simp only [List.cons_append, matchParen, hco, hcc, if_false, ite_false]
    simp only [Nat.one_ne_zero, if_false, ite_false, ht]
    rw [List.append_eq, ht]

/-- One `$(…)` replacement step when the command substitution errors: the
fragment disappears (replaced by the empty string) and the loop continues on
the spliced string. -/
theorem expandCmdSubs_error_step (O : CsOracle) (sc : Scope) (fuel : Nat)
    (pre cmd post : List Char) (e : String)
    (hpre : noDollarParen pre = true)
    (ho : '(' ∉ cmd) (hc : ')' ∉ cmd)
    (herr : O sc (String.mk cmd) = .error e) :
    expandCmdSubs O sc (fuel + 1) (pre ++ '$' :: '(' :: (cmd ++ ')' :: post)) =
      expandCmdSubs O sc fuel (pre ++ post) := by
  simp only [expandCmdSubs]
  rw [splitAtDollarParen_clean pre (cmd ++ ')' :: post) hpre]
  simp only []
  rw [matchParen_clean cmd post ho hc]
  simp only []
  rw [herr]
  simp only [List.nil_append]

theorem Scope.vars_set (s : Scope) (n : String) (v : Value) :
    (s.set n v).vars = assocSet s.vars n v := by
  cases s; rfl

theorem alookup_copyBack_not_mem :
    ∀ (cv : List (String × Value)) (s : Scope) (name : String),
      name ∉ cv.map Prod.fst →
      alookup (copyBack cv s).vars name = alookup s.vars name := by
  intro cv
  induction cv with
  | nil => intro s name _; rfl
  | cons p rest ih =>
    intro s name hnm
    obtain ⟨k, w⟩ := p
    have hk : name ≠ k := by
      intro hh
      exact hnm (by simp [hh])
    have hrest : name ∉ rest.map Prod.fst := by
      intro hh
      exact hnm (by simp [hh])
    show alookup (copyBack rest (s.set k w)).vars name = alookup s.vars name
    rw [ih (s.set k w) name hrest, Scope.vars_set,
      alookup_assocSet_other s.vars k name w hk]

theorem alookup_copyBack_of_mem :
    ∀ (cv : List (String × Value)) (s : Scope) (name : String) (v : Value),
      (cv.map Prod.fst).Nodup → alookup cv name = some v →
      alookup (copyBack cv s).vars name = some v := by
  intro cv
  induction cv with
  | nil => intro s name v _ hl; simp [alookup] at hl
  | cons p rest ih =>
    intro s name v hnd hl
    obtain ⟨k, w⟩ := p
    have hnd' : (rest.map Prod.fst).Nodup := by
      simpa using hnd.of_cons
    by_cases hk : k = name
    · subst hk
      have hv : v = w := by
        simp [alookup] at hl
        exact hl.symm
      subst hv
      have hkm : k ∉ rest.map Prod.fst := by
        have := hnd
        simp only [List.map_cons, List.nodup_cons] at this
        exact this.1
      show alookup (copyBack rest (s.set k v)).vars k = some v
      rw [alookup_copyBack_not_mem rest (s.set k v) k hkm, Scope.vars_set,
        alookup_assocSet_self]
    · have hl' : alookup rest name = some v := by
        simpa [alookup, hk] using hl
      exact ih (s.set k w) name v hnd' hl'

theorem evalPipelineAux_status (B : BuiltinTable) (O : CsOracle) :
    ∀ (cmds : List Cmd) (fuel : Nat) (s : Scope) (acc : List String)
      (last : Result),
      (evalPipelineAux B O fuel cmds s acc last).1.error = none →
      alookup ((evalPipelineAux B O fuel cmds s acc last).2.1).vars "status" =
          some (acc ++ stageCodes B O fuel cmds s) ∧
      (stageCodes B O fuel cmds s).length = cmds.length := by
  intro cmds
  induction cmds with
  | nil =>
    intro fuel s acc last herr
    cases fuel with
    | zero => simp [evalPipelineAux, fuelErr] at herr
    | succ f =>
      refine ⟨?_, by simp [stageCodes]⟩
      simp [evalPipelineAux, stageCodes, Scope.vars_set, alookup_assocSet_self]
  | cons c rest ih =>
    intro fuel s acc last herr
    cases fuel with
    | zero => simp [evalPipelineAux, fuelErr] at herr
    | succ f =>
      rcases hE : evalCommand B O f c s with ⟨r, s1, tr⟩
      cases hre : r.error with
      | some e =>
        rw [show evalPipelineAux B O (f + 1) (c :: rest) s acc last =
          (r, s1.set "status" (acc ++ [toString r.status]), tr) from by
            simp [evalPipelineAux, hE, hre]] at herr
        simp [hre] at herr
      | none =>
        have hunf : evalPipelineAux B O (f + 1) (c :: rest) s acc last =
            (let out := evalPipelineAux B O f rest s1 (acc ++ [toString r.status]) r
             (out.1, out.2.1, tr ++ out.2.2)) := by
          simp [evalPipelineAux, hE, hre]
        have hsc : stageCodes B O (f + 1) (c :: rest) s =
            toString r.status :: stageCodes B O f rest s1 := by
          simp [stageCodes, hE, hre]
        rw [hunf] at herr ⊢
        simp only [] at herr ⊢
        obtain ⟨ih1, ih2⟩ :=
          ih f s1 (acc ++ [toString r.status]) r herr
        constructor
        · rw [hsc, ih1]
          simp
        · rw [hsc]
          simp [ih2]

/-! ## Claim theorems -/

/-- A command-substitution oracle for scenarios that use none. -/
def noCs : Box.CsOracle := fun _ _ => .error "command substitution not modelled"

/-- An empty root scope (`NewScope()`). -/
def emptyScope : Box.Scope := Box.Scope.new

/-- Builtin table for the `!`-policy scenario: `c1` fails with status 1,
`c2` and `c0` succeed with status 0 (the statuses of scenario 4 of the spec,
`exists "/nonexistent" ! echo boom`). -/
def BboxBang : Box.BuiltinTable := fun v =>
  if v = "c1" then some (fun _ s => ({ status := 1 }, s))
  else if v = "c2" then some (fun _ s => ({ status := 0 }, s))
  else if v = "c0" then some (fun _ s => ({ status := 0 }, s))
  else none

/-- The same table for the eval.go evaluator. -/
def BibBang : IB.Table := fun v =>
  if v = "c1" then some (fun _ s => ({ status := 1 }, s))
  else if v = "c2" then some (fun _ s => ({ status := 0 }, s))
  else if v = "c0" then some (fun _ s => ({ status := 0 }, s))
  else none

/-- Go `c1 ! c2` with `c1` failing. -/
def bangCmd : Box.Cmd :=
  .mk "c1" [] .tryFallbackHalt (some (.mk "c2" [] .failFast none))

/-- Go `c0 ! c2` with `c0` succeeding. -/
def bangOkCmd : Box.Cmd :=
  .mk "c0" [] .tryFallbackHalt (some (.mk "c2" [] .failFast none))

/-- C1: For `C1 ! C2` (FallbackThenHalt): when `C1` succeeds the fallback is
not evaluated and no halt occurs; when `C1` fails the fallback runs exactly
once and the command halts with `C1`'s ORIGINAL status.  The part_002
evaluator satisfies this (halting with status 1 here), and this matches the
repo's own test (`try-fallback-halt with !` expects exit code 1); but the
eval.go evaluator halts with the FALLBACK's status (0 here), contradicting
the claim and the test — the code bug this theorem exhibits. -/
theorem c1_fallback_halt_bug :
    (Box.evalCommand BboxBang noCs 9 bangCmd emptyScope).1 =
      ({ status := 1, halt := true } : Box.Result) ∧
    (Box.evalCommand BboxBang noCs 9 bangCmd emptyScope).2.2 = ["c1", "c2"] ∧
    (Box.evalCommand BboxBang noCs 9 bangOkCmd emptyScope).1 =
      ({ status := 0 } : Box.Result) ∧
    (Box.evalCommand BboxBang noCs 9 bangOkCmd emptyScope).2.2 = ["c0"] ∧
    (IB.evalCommand BibBang noCs 9 bangCmd emptyScope).1 =
      ({ status := 0, halt := true } : IB.Result) ∧
    (IB.evalCommand BibBang noCs 9 bangCmd emptyScope).2.2 = ["c1", "c2"] := by
  refine ⟨by decide, by decide, by decide, by decide, by decide, by decide⟩

/-- Table with a probe verb recording a successful invocation. -/
def BboxProbe : Box.BuiltinTable :=
  Box.extendTable Box.builtinsModel "probe" (fun _ s => ({ status := 0 }, s))

/-- C2 (counterexample): `C ?` CAN halt the enclosing scope.  (a) `exit ?`:
`exit` yields status 0 with `Halt: true`, the error-policy block only runs
for an error or non-zero status, so the halting result passes through
unchanged; in a block, the command after `exit ?` is never reached (the
trace stops at `exit`).  (b) an argument-evaluation error (undefined
variable) returns before the policy is applied, so `?` does not swallow it
and the enclosing block stops on the error. -/
theorem c2_ignore_counterexample :
    (Box.evalCommand Box.builtinsModel noCs 9
        (.mk "exit" [] .ignoreError none) emptyScope).1.halt = true ∧
    (Box.evalItems BboxProbe noCs 9
        [.cmd (.mk "exit" [] .ignoreError none), .cmd (.mk "probe" [] .failFast none)]
        emptyScope).2.2 = ["exit"] ∧
    (Box.evalCommand Box.builtinsModel noCs 9
        (.mk "echo" [Box.Expr.variableExpr "nosuch" none] .ignoreError none)
        emptyScope).1.error ≠ none := by
  refine ⟨by decide, by decide, by decide⟩

/-- C2 (amended): evaluating `C ?` never halts the enclosing scope PROVIDED
`C`'s arguments evaluate without error and `C`'s invocation yields an error
or a non-zero status: the Ignore policy then returns a fresh
`Result{Status: …}` with no halt and no error.  (When the invocation
succeeds with status 0, its result — including a halt from `exit`/`break` —
passes through unchanged, and an argument-evaluation error bypasses the
policy; see the counterexample.) -/
theorem c2_ignore_never_halts (B : Box.BuiltinTable) (O : Box.CsOracle)
    (fuel : Nat) (c : Box.Cmd) (s : Box.Scope) (vs : List Box.Value)
    (r0 : Box.Result) (s1 : Box.Scope) (tr : List String)
    (hpol : c.policy = .ignoreError)
    (hverb : c.verb ≠ "spawn")
    (hargs : Box.evalArgs O fuel c.args s = .ok vs)
    (hinv : Box.invokeResolved B O fuel c vs s = (r0, s1, tr))
    (hfail : r0.error ≠ none ∨ r0.status ≠ 0) :
    Box.evalCommand B O (fuel + 1) c s =
      ({ status := r0.status }, Box.updateStatus r0 s1, tr) ∧
    (Box.evalCommand B O (fuel + 1) c s).1.halt = false ∧
    (Box.evalCommand B O (fuel + 1) c s).1.error = none := by
  have hspawn : ¬ (c.verb = "spawn" ∧ r0.error = none) := fun hh => hverb hh.1
  have hmain : Box.evalCommand B O (fuel + 1) c s =
      ({ status := r0.status }, Box.updateStatus r0 s1, tr) := by
    simp only [Box.evalCommand, hargs, hinv, hspawn, if_false, ite_false, hpol]
    rw [if_pos hfail]
    simp
  exact ⟨hmain, by rw [hmain], by rw [hmain]⟩

/-- Witness for `c2_ignore_never_halts`: a failing probe verb (status 7)
under the Ignore policy. -/
def BprobeFail : Box.BuiltinTable := fun v =>
  if v = "fail7" then some (fun _ s => ({ status := 7 }, s)) else none

theorem c2_ignore_never_halts_witness :
    Box.evalCommand BprobeFail noCs (8 + 1)
        (.mk "fail7" [] .ignoreError none) emptyScope =
      ({ status := 7 }, Box.updateStatus { status := 7 } emptyScope, ["fail7"]) ∧
    (Box.evalCommand BprobeFail noCs (8 + 1)
        (.mk "fail7" [] .ignoreError none) emptyScope).1.halt = false ∧
    (Box.evalCommand BprobeFail noCs (8 + 1)
        (.mk "fail7" [] .ignoreError none) emptyScope).1.error = none :=
  c2_ignore_never_halts BprobeFail noCs 8
    (.mk "fail7" [] .ignoreError none) emptyScope [] { status := 7 }
    emptyScope ["fail7"] rfl (by decide) rfl rfl (Or.inr (by decide))

/-- C3 (amended): (a) after a single command carrying no fallback (and not
`spawn`, whose variable keeps the PID), the scope variable `status` holds
the decimal rendering of that command's result status; (b) after an N-stage
pipeline (N ≥ 2) in which no stage produced a hard error, `status` holds the
per-stage exit codes (`stageCodes`), one decimal string per stage in stage
order, of length N.  (When a fallback runs, `status` instead holds the
fallback's status — see the counterexample; on a hard error at stage i the
pipeline stops with only the first i+1 codes.) -/
theorem c3_status_variable :
    (∀ (B : Box.BuiltinTable) (O : Box.CsOracle) (fuel : Nat) (c : Box.Cmd)
       (s : Box.Scope), c.fallback = none → c.verb ≠ "spawn" →
       alookup ((Box.evalCommand B O (fuel + 1) c s).2.1).vars "status" =
         some [toString (Box.evalCommand B O (fuel + 1) c s).1.status]) ∧
    (∀ (B : Box.BuiltinTable) (O : Box.CsOracle) (fuel : Nat)
       (cmds : List Box.Cmd) (s : Box.Scope), 2 ≤ cmds.length →
       (Box.evalPipeline B O (fuel + 1) cmds s).1.error = none →
       alookup ((Box.evalPipeline B O (fuel + 1) cmds s).2.1).vars "status" =
           some (Box.stageCodes B O fuel cmds s) ∧
       (Box.stageCodes B O fuel cmds s).length = cmds.length) := by
  constructor
  · intro B O fuel c s hfb hverb
    cases hargs : Box.evalArgs O fuel c.args s with
    | error err =>
      simp [Box.evalCommand, hargs, Box.updateStatus, Box.Scope.vars_set,
        alookup_assocSet_self]
    | ok vs =>
      rcases hinv : Box.invokeResolved B O fuel c vs s with ⟨r0, s1, tr⟩
      have hspawn : ¬ (c.verb = "spawn" ∧ r0.error = none) := fun hh => hverb hh.1
      have hfb' : c.fallback.isSome = false := by simp [hfb]
      have hvars : ∀ X : Box.Result,
          alookup (Box.updateStatus r0 s1).vars "status" = some [toString r0.status] := by
        intro _
        rw [Box.updateStatus, Box.Scope.vars_set, alookup_assocSet_self]
      simp only [Box.evalCommand, hargs, hinv, hspawn, if_false, ite_false, hfb',
        Bool.false_eq_true, and_false]
      by_cases hcond : r0.error ≠ none ∨ r0.status ≠ 0
      · rw [if_pos hcond]
        by_cases hpi : c.policy = .ignoreError
        · simp only [hpi, if_pos rfl]
          exact hvars r0
        · rw [if_neg hpi]
          by_cases hpf : c.policy = .failFast
          · simp only [hpf, if_pos rfl]
            exact hvars r0
          · rw [if_neg hpf]
            exact hvars r0
      · rw [if_neg hcond]
        exact hvars r0
  · intro B O fuel cmds s hlen herr
    match cmds, hlen with
    | c1 :: c2 :: rest, _ =>
      have hunf : Box.evalPipeline B O (fuel + 1) (c1 :: c2 :: rest) s =
          Box.evalPipelineAux B O fuel (c1 :: c2 :: rest) s [] { status := 0 } := rfl
      rw [hunf] at herr ⊢
      have := Box.evalPipelineAux_status B O (c1 :: c2 :: rest) fuel s [] { status := 0 } herr
      simpa using this

theorem c3_status_variable_witness :
    (alookup ((Box.evalCommand BprobeFail noCs (8 + 1)
        (.mk "fail7" [] .failFast none) emptyScope).2.1).vars "status" =
      some [toString (Box.evalCommand BprobeFail noCs (8 + 1)
        (.mk "fail7" [] .failFast none) emptyScope).1.status]) ∧
    (alookup ((Box.evalPipeline BboxBang noCs (8 + 1)
        [.mk "c0" [] .failFast none, .mk "c1" [] .failFast none]
        emptyScope).2.1).vars "status" =
        some (Box.stageCodes BboxBang noCs 8
          [.mk "c0" [] .failFast none, .mk "c1" [] .failFast none] emptyScope) ∧
      (Box.stageCodes BboxBang noCs 8
        [.mk "c0" [] .failFast none, .mk "c1" [] .failFast none]
        emptyScope).length =
        ([Box.Cmd.mk "c0" [] .failFast none,
          Box.Cmd.mk "c1" [] .failFast none] : List Box.Cmd).length) :=
  ⟨c3_status_variable.1 BprobeFail noCs 8 (.mk "fail7" [] .failFast none)
      emptyScope rfl (by decide),
   c3_status_variable.2 BboxBang noCs 8
      [.mk "c0" [] .failFast none, .mk "c1" [] .failFast none] emptyScope
      (by decide) (by decide)⟩

/-- Table for the fallback-overwrites-status scenario: both `f1` and its
fallback `f2` fail with status 1. -/
def BboxFallback : Box.BuiltinTable := fun v =>
  if v = "f1" then some (fun _ s => ({ status := 1 }, s))
  else if v = "f2" then some (fun _ s => ({ status := 1 }, s))
  else none

/-- C3 (counterexample): after `f1 ? f2` where both fail, the command's
result status is 0 (FallbackThenContinue reports success) but the `status`
variable holds the FALLBACK's exit "1" — not "that command's integer exit
status" as the claim states. -/
theorem c3_status_counterexample :
    (Box.evalCommand BboxFallback noCs 9
        (.mk "f1" [] .fallbackOnError (some (.mk "f2" [] .failFast none)))
        emptyScope).1.status = 0 ∧
    alookup ((Box.evalCommand BboxFallback noCs 9
        (.mk "f1" [] .fallbackOnError (some (.mk "f2" [] .failFast none)))
        emptyScope).2.1).vars "status" = some ["1"] ∧
    ¬ (alookup ((Box.evalCommand BboxFallback noCs 9
        (.mk "f1" [] .fallbackOnError (some (.mk "f2" [] .failFast none)))
        emptyScope).2.1).vars "status" =
      some [toString (Box.evalCommand BboxFallback noCs 9
        (.mk "f1" [] .fallbackOnError (some (.mk "f2" [] .failFast none)))
        emptyScope).1.status]) := by
  refine ⟨by decide, by decide, by decide⟩

/-- The loop of the C4 scenario: `for i in 1 2` with body `break` then a
probe command. -/
def c4ForBlock : Box.Block :=
  .mk .customBlock "for" ["i", "in", "1", "2"]
    [.cmd (.mk "break" [] .failFast none), .cmd (.mk "probe" [] .failFast none)]

/-- C4: the claim says `break` produces a Result whose halt-kind
(`BreakHalt`) makes a `for` loop end; but `builtinBreak` (like
`builtinContinue`, `builtinExit`, `builtinReturn`) sets only `Halt: true`
and never a `HaltType`, so its result carries the zero value `NoHalt`, which
matches NO case of the `switch result.HaltType` in `evalFor` — the body
simply continues.  In `for i in 1 2 { break; probe }` the probe runs after
`break` in BOTH iterations and the loop completes normally: `break` is a
no-op, contradicting the claim (and the spec, whose halt-kind machinery in
`evalFor`/`evalWhile`/`callFunctionWithNamespace` is dead code). -/
theorem c4_break_is_noop_bug :
    (Box.builtinBreak [] emptyScope).1 =
      ({ status := 0, halt := true, haltType := .noHalt } : Box.Result) ∧
    (Box.evalFor BboxProbe noCs 20 c4ForBlock emptyScope).2.2 =
      ["break", "probe", "break", "probe"] ∧
    (Box.evalFor BboxProbe noCs 20 c4ForBlock emptyScope).1 =
      ({ status := 0 } : Box.Result) := by
  refine ⟨by decide, by decide, by decide⟩

/-- C6: lexing is NOT total.  On the input `"]"` (stray reserved bracket),
`NextToken` reaches the default branch, `readWord` immediately stops on the
reserved `']'` and returns the empty word WITHOUT advancing, so the lexer
state never changes: every call yields the token `WORD ""` and the stream
never reaches EOF — `box lex` would loop forever.  This contradicts the
spec's totality claim and the source's own comment that "only reserved
characters are handled by the earlier cases in this switch" (`']'` is
reserved but no earlier case handles it). -/
theorem c6_lexer_diverges_on_bracket :
    ∀ n : Nat, IBLex.tokensN n (IBLex.initLex "]") =
      List.replicate n ⟨IBLex.TokenKind.WORD, "", 1, 1⟩ := by
  have hfix : IBLex.nextToken (IBLex.initLex "]") =
      (⟨IBLex.TokenKind.WORD, "", 1, 1⟩, IBLex.initLex "]") := by decide
  intro n
  induction n with
  | zero => rfl
  | succ k ih =>
    rw [List.replicate_succ]
    simp only [IBLex.tokensN, hfix]
    rw [ih]

/-- C8 (counterexample): the internal/box lexer emits NO Newline token —
`skipWhitespace` consumes `'\n'` like any space and `TokenKind` has no
newline kind — so `"a\nb"` and `"a b"` produce identical kind/value token
streams: the token stream does not distinguish commands on different
physical lines. -/
theorem c8_no_newline_token_counterexample :
    (IBLex.tokensN 3 (IBLex.initLex "a\nb")).map (fun t => (t.kind, t.value)) =
        (IBLex.tokensN 3 (IBLex.initLex "a b")).map (fun t => (t.kind, t.value)) ∧
    (IBLex.tokensN 3 (IBLex.initLex "a\nb")).map (fun t => (t.kind, t.value)) =
        [(IBLex.TokenKind.WORD, "a"), (IBLex.TokenKind.WORD, "b"),
         (IBLex.TokenKind.EOF, "")] := by
  refine ⟨by decide, by decide⟩

/-- C8 (amended): the internal/box lexer preserves line boundaries only in
the `Line` field of its tokens (its parser ends a command when the next WORD
sits on a later line), not as Newline tokens: lexing `"a\nb"` gives the
same kinds and values as `"a b"` but with line numbers 1, 2, 2 instead of
1, 1, 1. -/
theorem c8_line_numbers_carry_boundaries :
    (IBLex.tokensN 3 (IBLex.initLex "a\nb")).map
        (fun t => (t.kind, t.value, t.line)) =
      [(IBLex.TokenKind.WORD, "a", 1), (IBLex.TokenKind.WORD, "b", 2),
       (IBLex.TokenKind.EOF, "", 2)] ∧
    (IBLex.tokensN 3 (IBLex.initLex "a b")).map
        (fun t => (t.kind, t.value, t.line)) =
      [(IBLex.TokenKind.WORD, "a", 1), (IBLex.TokenKind.WORD, "b", 1),
       (IBLex.TokenKind.EOF, "", 1)] := by
  refine ⟨by decide, by decide⟩

/-- C5 (counterexample): the code applies `strings.TrimSpace`, which strips
LEADING whitespace and trailing non-newline whitespace too, not just
trailing newlines as the claim states: capturing `" x\n"` yields `["x"]`,
while the claim's trailing-newline-trim-then-split yields `[" x"]`. -/
theorem c5_trimspace_counterexample :
    Box.processCommandSubOutput (" x\n".toList) = [['x']] ∧
    Box.processOutputValue " x\n" = ["x"] ∧
    Box.specCommandSubSplit (" x\n".toList) = [[' ', 'x']] ∧
    Box.processCommandSubOutput (" x\n".toList) ≠
      Box.specCommandSubSplit (" x\n".toList) := by
  refine ⟨by decide, by decide, by decide, by decide⟩

/-- C5 (amended): the captured output is trimmed of leading AND trailing Go
white space (`strings.TrimSpace` — trailing newlines are the special case
covered by `ws2`), and the trimmed core splits at embedded newlines into one
element per line: for any line list (newline-free lines, the first starting
and the last ending with non-space) surrounded by arbitrary white space, the
Value is exactly the line list. -/
theorem c5_output_trim_split (lines : List (List Char)) (ws1 ws2 : List Char)
    (h0 : lines ≠ [])
    (h1 : ∀ l ∈ lines, '\n' ∉ l)
    (h2 : ∀ c ∈ ws1, goIsSpace c)
    (h3 : ∀ c ∈ ws2, goIsSpace c)
    (h4 : ∀ c, (['\n'].intercalate lines).head? = some c → goIsSpace c = false)
    (h5 : ∀ c, (['\n'].intercalate lines).getLast? = some c → goIsSpace c = false) :
    Box.processCommandSubOutput (ws1 ++ (['\n'].intercalate lines ++ ws2)) =
      lines := by
  have htrim : Box.goTrimSpace (ws1 ++ (['\n'].intercalate lines ++ ws2)) =
      ['\n'].intercalate lines :=
    Box.goTrimSpace_pad (['\n'].intercalate lines) ws1 ws2 h2 h3 h4 h5
  unfold Box.processCommandSubOutput
  rw [htrim]
  by_cases hs : ['\n'].intercalate lines = []
  · rw [if_pos hs]
    cases lines with
    | nil => exact absurd rfl h0
    | cons l1 t =>
      cases t with
      | nil =>
        have hl1 : l1 = [] := by simpa [List.intercalate] using hs
        simp [hl1]
      | cons l2 t2 =>
        rw [Box.intercalate_cons_cons] at hs
        simp at hs
  · rw [if_neg hs]
    exact List.splitOn_intercalate lines '\n' h1 h0

theorem c5_output_trim_split_witness :
    Box.processCommandSubOutput ([] ++ (['\n'].intercalate [['a'], ['b']] ++ ['\n'])) =
      [['a'], ['b']] :=
  c5_output_trim_split [['a'], ['b']] [] ['\n'] (by decide) (by decide)
    (by decide) (by decide)
    (by
      intro c hc
      rw [show (['\n'].intercalate [['a'], ['b']]).head? = some 'a' from by decide] at hc
      injection hc with h
      subst h
      decide)
    (by
      intro c hc
      rw [show (['\n'].intercalate [['a'], ['b']]).getLast? = some 'b' from by decide] at hc
      injection hc with h
      subst h
      decide)

/-- The function of the C9 scenarios: `[fn noop]` whose body is `set x 1`. -/
def fnWitness : Box.Block :=
  .mk .funcBlock "noop" []
    [.cmd (.mk "set" [.literalExpr "x", .literalExpr "1"] .failFast none)]

/-- C9 (amended): after a user-defined function call, the caller's scope is
exactly the caller with EVERY binding of the callee's final variable map
written over it (`copyBack`), so every name the callee bound — parameters,
numbered extras, `set` targets, `status` — is present in the caller with the
callee's value, overwriting same-named caller variables.  (The key
uniqueness hypothesis holds for every scope the evaluator builds, since Go
maps cannot hold duplicate keys.)  The "therefore the caller's map never
stays unchanged" part of the claim is false — see the counterexample. -/
theorem c9_copy_back (B : Box.BuiltinTable) (O : Box.CsOracle) (fuel : Nat)
    (fn : Box.Block) (args : List String) (ns : String) (s : Box.Scope)
    (hnd : (((Box.evalBlock B O fuel fn
        (Box.functionChildScope fn args ns s)).2.1).vars.map Prod.fst).Nodup) :
    (Box.callFunctionWithNamespace B O (fuel + 1) fn args ns s).2.1 =
      Box.copyBack ((Box.evalBlock B O fuel fn
        (Box.functionChildScope fn args ns s)).2.1).vars s ∧
    ∀ (name : String) (v : Box.Value),
      alookup ((Box.evalBlock B O fuel fn
          (Box.functionChildScope fn args ns s)).2.1).vars name = some v →
      alookup ((Box.callFunctionWithNamespace B O (fuel + 1) fn args ns
          s).2.1).vars name = some v := by
  rcases hE : Box.evalBlock B O fuel fn (Box.functionChildScope fn args ns s)
    with ⟨r, sf, tr⟩
  have h1 : (Box.callFunctionWithNamespace B O (fuel + 1) fn args ns s).2.1 =
      Box.copyBack sf.vars s := by
    simp [Box.callFunctionWithNamespace, hE]
  have hnd' : (sf.vars.map Prod.fst).Nodup := by
    rw [hE] at hnd
    exact hnd
  refine ⟨h1, ?_⟩
  intro name v hv
  rw [h1]
  exact Box.alookup_copyBack_of_mem sf.vars s name v hnd' hv

theorem c9_copy_back_witness :
    ((Box.callFunctionWithNamespace Box.builtinsModel noCs (8 + 1) fnWitness []
        "" emptyScope).2.1 =
      Box.copyBack ((Box.evalBlock Box.builtinsModel noCs 8 fnWitness
        (Box.functionChildScope fnWitness [] "" emptyScope)).2.1).vars
        emptyScope) ∧
    alookup ((Box.callFunctionWithNamespace Box.builtinsModel noCs (8 + 1)
        fnWitness [] "" emptyScope).2.1).vars "x" = some ["1"] :=
  have h := c9_copy_back Box.builtinsModel noCs 8 fnWitness [] "" emptyScope
    (by decide)
  ⟨h.1, h.2 "x" ["1"] (by decide)⟩

/-- The caller scope of the C9 counterexample: it already binds `x = "1"`
and `status = "0"`. -/
def callerScope : Box.Scope :=
  .mk [("x", ["1"]), ("status", ["0"])] [] [] [] "" none

/-- C9 (counterexample): calling `noop` (whose body runs `set x 1`) from a
caller that already has `x = "1"` and `status = "0"` copies back a NONEMPTY
callee variable map — the callee bound `x` and `status` — yet leaves the
caller's variable map exactly unchanged, refuting "function calls never
leave the caller's variable map unchanged when the callee binds any name". -/
theorem c9_unchanged_counterexample :
    (Box.callFunction Box.builtinsModel noCs 9 fnWitness [] callerScope).2.1.vars =
      callerScope.vars ∧
    ((Box.evalBlock Box.builtinsModel noCs 8 fnWitness
        (Box.functionChildScope fnWitness [] "" callerScope)).2.1).vars ≠ [] := by
  refine ⟨by decide, by decide⟩

/-- The always-failing command-substitution oracle of the C10 witness. -/
def errCs : Box.CsOracle := fun _ _ => .error "boom"

/-- C10: literal expansion never produces an error — `evalExpression` on a
`LiteralExpr` always returns `ok` with the expanded string, for any input
string, scope and oracle — and when an embedded `$(…)`'s substitution fails
(parse or execution error), the error is discarded and the fragment is
replaced by the empty string: the expansion continues on the input with the
`$(…)` fragment deleted. -/
theorem c10_literal_expansion_total :
    (∀ (O : Box.CsOracle) (sc : Box.Scope) (fuel : Nat) (v : String),
       Box.evalExpression O fuel (.literalExpr v) sc =
         .ok [Box.expandVariables O sc fuel v]) ∧
    (∀ (O : Box.CsOracle) (sc : Box.Scope) (fuel : Nat)
       (pre cmd post : List Char) (e : String),
       Box.noDollarParen pre = true → '(' ∉ cmd → ')' ∉ cmd →
       O sc (String.mk cmd) = .error e →
       Box.expandCmdSubs O sc (fuel + 1)
           (pre ++ '$' :: '(' :: (cmd ++ ')' :: post)) =
         Box.expandCmdSubs O sc fuel (pre ++ post)) :=
  ⟨fun _ _ _ _ => rfl,
   fun O sc fuel pre cmd post e h1 h2 h3 h4 =>
     Box.expandCmdSubs_error_step O sc fuel pre cmd post e h1 h2 h3 h4⟩

theorem c10_literal_expansion_total_witness :
    (Box.evalExpression errCs 3 (.literalExpr "hi") emptyScope =
      .ok [Box.expandVariables errCs emptyScope 3 "hi"]) ∧
    Box.expandCmdSubs errCs emptyScope (0 + 1)
        ("a".toList ++ '$' :: '(' :: ("b".toList ++ ')' :: "c".toList)) =
      Box.expandCmdSubs errCs emptyScope 0 ("a".toList ++ "c".toList) :=
  ⟨c10_literal_expansion_total.1 errCs emptyScope 3 "hi",
   c10_literal_expansion_total.2 errCs emptyScope 0 "a".toList "b".toList
     "c".toList "boom" (by decide) (by decide) (by decide) rfl⟩
